import Mathlib

/-!
# gifserver: staging, conversion strategies and publishing

A shallow embedding of `src/gifserver/gif.go`.

The Go functions are translated one by one, under their own names, as functions
that pass an explicit `World` (file system, fault schedule, tool behaviour,
invocation record, log).  The pieces of the Go standard library the file calls
(`path.Join`, `filepath.Dir`, `ioutil.TempDir`, `os.Create`, `io.Copy`,
`os.RemoveAll`, `exec.Cmd.Run`, `gif.DecodeConfig`) are not part of the
repository; they are modelled here, on a Unix host, and each model says what it
takes from the library's documented behaviour.
-/

namespace GifServer

/-! ## Lexical paths (`path`, `path/filepath` on Unix) -/

/-- The slash-separated elements of a path: `a//b/` has the elements `a`, the
empty element, `b` and the empty element. -/
def elems : List Char → List (List Char)
  | [] => [[]]
  | c :: cs =>
    if c = '/' then [] :: elems cs
    else
      match elems cs with
      | [] => [[c]]
      | e :: es => (c :: e) :: es

/-- The inverse of `elems`: `strings.Join(elem, "/")`. -/
def joinElems : List (List Char) → List Char
  | [] => []
  | [e] => e
  | e :: e2 :: es => e ++ '/' :: joinElems (e2 :: es)

/-- The output buffer of `path.Clean`, element-wise.  Go keeps a byte buffer and an
index `dotdot` below which `..` may not backtrack; the bytes below that index are
always a run of `..` elements (or the leading slash of a rooted path), so the
buffer is that number of `..` elements followed by the elements written since. -/
structure Lazybuf where
  dotdot : Nat
  names : List (List Char)
  deriving DecidableEq, Repr

/-- One turn of the loop of `path.Clean`, on the element that starts at the read
index: an empty element and `.` are skipped; `..` removes the last written element
when there is one above `dotdot`, is appended (and `dotdot` moved past it) when the
path is not rooted, and is dropped at the root; any other element is appended. -/
def cleanStep (rooted : Bool) (out : Lazybuf) (e : List Char) : Lazybuf :=
  if e = [] then out
  else if e = ['.'] then out
  else if e = ['.', '.'] then
    if out.names ≠ [] then { out with names := out.names.dropLast }
    else if !rooted then { out with dotdot := out.dotdot + 1 }
    else out
  else { out with names := out.names ++ [e] }

/-- The buffer of `path.Clean` as a string. -/
def Lazybuf.string (rooted : Bool) (out : Lazybuf) : List Char :=
  (if rooted then ['/'] else []) ++
    joinElems (List.replicate out.dotdot ['.', '.'] ++ out.names)

/-- Go `path.Clean` (and `filepath.Clean` on Unix): the shortest path name
equivalent to `path` by purely lexical processing. -/
def Clean (path : List Char) : List Char :=
  if path = [] then ['.']
  else
    let rooted := path.head? == some '/'
    let out := (elems path).foldl (cleanStep rooted) ⟨0, []⟩
    let s := out.string rooted
    if s = [] then ['.'] else s

/-- Go `path.Join`: the first non-empty element and all that follow it are joined
with slashes and cleaned; empty leading elements are ignored, and the result is
empty when every element is. -/
def Join : List (List Char) → List Char
  | [] => []
  | e :: es => if e = [] then Join es else Clean (joinElems (e :: es))

/-- Go `filepath.Dir` on Unix (no volume name): everything up to and including the
last slash, cleaned. -/
def Dir (path : List Char) : List Char :=
  Clean (path.reverse.dropWhile (fun c => c != '/')).reverse

/-- `path.Join` on strings. -/
def path_Join (elem : List String) : String :=
  ⟨Join (elem.map String.data)⟩

/-- `filepath.Dir` on strings. -/
def filepath_Dir (path : String) : String :=
  ⟨Dir path.data⟩

/-- An element that `path.Clean` copies to its output: not empty, not `.`, not
`..`, and without a slash. -/
def IsName (e : List Char) : Prop :=
  e ≠ [] ∧ e ≠ ['.'] ∧ e ≠ ['.', '.'] ∧ '/' ∉ e

/-- What the loop of `path.Clean` keeps true of its buffer: a rooted path never
holds a leading `..`, and every written element is a name. -/
def BufOk (rooted : Bool) (out : Lazybuf) : Prop :=
  (rooted = true → out.dotdot = 0) ∧ ∀ n ∈ out.names, IsName n

/-- The elements of the buffer, in order. -/
def Lazybuf.elements (out : Lazybuf) : List (List Char) :=
  List.replicate out.dotdot ['.', '.'] ++ out.names

/-- The buffer `path.Clean` ends its loop with. -/
def cleanRun (path : List Char) : Lazybuf :=
  (elems path).foldl (cleanStep (path.head? == some '/')) ⟨0, []⟩

/-- The buffer after one more name was written to it. -/
def Lazybuf.push (out : Lazybuf) (n : List Char) : Lazybuf :=
  { out with names := out.names ++ [n] }

/-! ## Errors, readers, the file system and the world -/

/-- A byte. -/
abbrev Byte := Fin 256

/-- Go `error` values the code makes or is handed.  `errorf` is the value of
`fmt.Errorf(format, args...)`, kept as its format and operands.  `exitError` is
`*exec.ExitError`: the exit code of its `ProcessState` and its `Stderr` field.
The others are what the operating system reports. -/
inductive GoError where
  | errorf (format : String) (args : List Int)
  | exitError (code : Int) (Stderr : List Char)
  | exist (name : String)
  | notExist (name : String)
  | isDir (name : String)
  | invalid (name : String)
  | other (msg : String)
  deriving DecidableEq, Repr

/-- Go `os.IsExist`. -/
def os_IsExist : Option GoError → Bool
  | some (GoError.exist _) => true
  | _ => false

/-- What a path names. -/
inductive Node where
  | dir
  | file (content : List Byte)
  deriving DecidableEq, Repr

/-- The file system: what each path names, if anything.  Paths are compared as
strings; two different strings name two different things.  That two different
strings can name one file (through `.`, `..`, a link or the working directory) is
not modelled. -/
abbrev FS := String → Option Node

/-- The file system with `name` naming `n`. -/
def FS.write (fs : FS) (name : String) (n : Node) : FS :=
  fun q => if q = name then some n else fs q

/-- Whether `q` is `dir` or lies beneath it. -/
def under (dir q : String) : Bool :=
  q == dir || (dir.data ++ ['/']).isPrefixOf q.data

/-- The file system without `dir` and everything beneath it. -/
def FS.removeAll (fs : FS) (dir : String) : FS :=
  fun q => if under dir q then none else fs q

/-- An `io.Reader` as this code meets one: a byte stream that delivers `data` and
then ends, with end-of-file (`err = none`) or with a read error; or an open file,
which delivers what the file holds when it is read. -/
inductive Reader where
  | stream (data : List Byte) (err : Option GoError)
  | file (name : String)
  deriving DecidableEq, Repr

/-- Everything the reader delivers, and the error it ends with (none at
end-of-file). -/
def Reader.readAll (r : Reader) (fs : FS) : List Byte × Option GoError :=
  match r with
  | Reader.stream data err => (data, err)
  | Reader.file name =>
    match fs name with
    | some (Node.file c) => (c, none)
    | some Node.dir => ([], some (GoError.isDir name))
    | none => ([], some (GoError.notExist name))

/-- A system call that fails: the error it reports, and, for a write, how many
bytes reached the file before it failed. -/
structure Fault where
  err : GoError
  written : Nat
  deriving DecidableEq, Repr

/-- Go `exec.Cmd`, with the fields this code sets.  `Stdout` and `Stderr` are
never assigned, so they keep the nil that `exec.Command` leaves: the child's
output goes to the null device. -/
structure Cmd where
  Path : String
  Args : List String
  Dir : String
  deriving DecidableEq, Repr

/-- What starting a child process and waiting for it comes to: it could not be
started (binary missing, permission denied), or it ran and exited with a status,
having written `stderr` to its standard error and left the file system `fs`. -/
inductive Exit where
  | notStarted (err : GoError)
  | exited (code : Int) (stderr : List Char) (fs : FS)

/-- An operand of `log.Print`. -/
inductive LogArg where
  | str (s : String)
  | err (e : GoError)
  deriving DecidableEq, Repr

/-- The world the code runs in.
* `fs`: the file system.
* `faults`: for each coming fallible system call, in order, whether it fails
  (any call may fail; past the end of the list none does).
* `TMPDIR`: the environment variable.
* `rands`: the numbers the runtime draws for temporary names.
* `tool`: how an external program behaves, given its command and the file system.
* `ran`: the commands run so far, each with the error `Run` returned.
* `log`: the calls of `log.Print` so far.
* `openFiles`: the files held open. -/
structure World where
  fs : FS
  faults : List (Option Fault)
  TMPDIR : String
  rands : List Nat
  tool : Cmd → FS → Exit
  ran : List (Cmd × Option GoError)
  log : List (List LogArg)
  openFiles : List String

/-- The outcome scheduled for the next fallible system call. -/
def World.popFault (w : World) : Option Fault × World :=
  match w.faults with
  | [] => (none, w)
  | f :: rest => (f, { w with faults := rest })

/-- Go `log.Print`. -/
def log_Print (args : List LogArg) (w : World) : World :=
  { w with log := w.log ++ [args] }

/-! ## The standard library calls -/

/-- Go `os.TempDir` on Unix: `$TMPDIR`, or `/tmp` when that is empty. -/
def os_TempDir (w : World) : String :=
  if w.TMPDIR = "" then "/tmp" else w.TMPDIR

/-- The random part of a temporary name: a number drawn by the runtime, in
decimal. -/
def nextRandom (w : World) : String × World :=
  (⟨Nat.toDigits 10 (w.rands.headD 0)⟩, { w with rands := w.rands.tail })

/-- Go `os.Mkdir`: fails when the call faults or the name is taken, else makes an
empty directory. -/
def os_Mkdir (name : String) (w : World) : Option GoError × World :=
  match w.popFault with
  | (some f, w) => (some f.err, w)
  | (none, w) =>
    match w.fs name with
    | some _ => (some (GoError.exist name), w)
    | none => (none, { w with fs := w.fs.write name Node.dir })

/-- The loop of `ioutil.TempDir`: up to `tries` attempts at
`filepath.Join(dir, prefix + random)`; an attempt whose name exists is repeated
with a new name, any other failure ends the loop with that error, and the first
directory made is returned.  `err` is the error of the last attempt. -/
def tempDirLoop (dir pre : String) :
    Nat → Option GoError → World → (String × Option GoError) × World
  | 0, err, w => (("", err), w)
  | tries + 1, _, w =>
    let (r, w) := nextRandom w
    let try_ := path_Join [dir, pre ++ r]
    match os_Mkdir try_ w with
    | (err, w) =>
      if os_IsExist err then tempDirLoop dir pre tries err w
      else if err = none then ((try_, none), w)
      else (("", err), w)

/-- Go `ioutil.TempDir(dir, prefix)` for a prefix without `*`. -/
def ioutil_TempDir (dir pre : String) (w : World) : (String × Option GoError) × World :=
  tempDirLoop (if dir = "" then os_TempDir w else dir) pre 10000 none w

/-- Go `os.Create`: fails when the call faults or the name is a directory, else
leaves an empty file at `name`, open for writing from its start.  The handle is
the name. -/
def os_Create (name : String) (w : World) : Option GoError × World :=
  match w.popFault with
  | (some f, w) => (some f.err, w)
  | (none, w) =>
    match w.fs name with
    | some Node.dir => (some (GoError.isDir name), w)
    | _ =>
      (none, { w with fs := w.fs.write name (Node.file []), openFiles := name :: w.openFiles })

/-- Go `os.Open`: fails when the call faults or nothing has the name, else opens
it for reading.  The handle is the name. -/
def os_Open (name : String) (w : World) : Option GoError × World :=
  match w.popFault with
  | (some f, w) => (some f.err, w)
  | (none, w) =>
    match w.fs name with
    | none => (some (GoError.notExist name), w)
    | some _ => (none, { w with openFiles := name :: w.openFiles })

/-- Go `(*os.File).Close`.  Its error is never looked at by this code. -/
def File_Close (name : String) (w : World) : World :=
  { w with openFiles := w.openFiles.erase name }

/-- Go `io.Copy(dst, src)` into a file just created: everything `src` delivers is
written to `dst`.  When the write faults, only the first `written` bytes are in
the file and the fault is returned; otherwise the error is the one the reader
ended with (none at end-of-file).  The count of bytes written comes first. -/
def io_Copy (dst : String) (src : Reader) (w : World) : (Nat × Option GoError) × World :=
  match src.readAll w.fs, w.popFault with
  | (data, _), (some f, w) =>
    (((data.take f.written).length, some f.err),
      { w with fs := w.fs.write dst (Node.file (data.take f.written)) })
  | (data, rerr), (none, w) =>
    ((data.length, rerr), { w with fs := w.fs.write dst (Node.file data) })

/-- Go `endsWithDot`: whether the final element of the path is `.`. -/
def endsWithDot (path : String) : Bool :=
  match path.data.reverse with
  | ['.'] => true
  | '.' :: '/' :: _ => true
  | _ => false

/-- Go `os.RemoveAll`: nothing is done for the empty path; a path whose final
element is `.` is refused; a call that faults removes nothing; otherwise the path
and everything beneath it are gone (also when there was nothing). -/
def os_RemoveAll (path : String) (w : World) : Option GoError × World :=
  if path = "" then (none, w)
  else if endsWithDot path then (some (GoError.invalid path), w)
  else
    match w.popFault with
    | (some f, w) => (some f.err, w)
    | (none, w) => (none, { w with fs := w.fs.removeAll path })

/-- Go `exec.Command(name, arg...)`: the program is looked up when the command is
run; a program that is not found makes `Run` fail to start it. -/
def exec_Command (name : String) (arg : List String) : Cmd :=
  { Path := name, Args := name :: arg, Dir := "" }

/-- Go `(*exec.Cmd).Run`: starts the command and waits for it.  The error is nil
when the command exits with status zero, the start error when it could not be
started, and otherwise an `*exec.ExitError` holding the exit code.  The `Stderr`
field of that error is filled only by `Output`, and only when `c.Stderr` is nil;
`Run` leaves it empty, and what the child wrote to standard error is discarded
because `c.Stderr` is nil. -/
def Cmd.Run (c : Cmd) (w : World) : Option GoError × World :=
  match w.tool c w.fs with
  | Exit.notStarted err => (some err, { w with ran := w.ran ++ [(c, some err)] })
  | Exit.exited code _ fs =>
    if code = 0 then (none, { w with fs := fs, ran := w.ran ++ [(c, none)] })
    else (some (GoError.exitError code []),
      { w with fs := fs, ran := w.ran ++ [(c, some (GoError.exitError code []))] })

/-- Go `image.Config`, the fields this code reads. -/
structure Config where
  Width : Int
  Height : Int
  deriving DecidableEq, Repr

/-! ## `gif.go` -/

/-- Source `checkDimensions`.  `gif.DecodeConfig` is the parameter `DecodeConfig`. -/
def checkDimensions (DecodeConfig : Reader → Config × Option GoError)
    (reader : Reader) (maxWidth maxHeight : Int) : Option GoError :=
  match DecodeConfig reader with
  | (_, some err) => some err
  | (data, none) =>
    if maxWidth > 0 ∧ data.Width > maxWidth then
      some (GoError.errorf "Image width too large %d > %d" [data.Width, maxWidth])
    else if maxHeight > 0 ∧ data.Height > maxHeight then
      some (GoError.errorf "Image height too large %d > %d" [data.Height, maxHeight])
    else none

/-- Source `extractGif`. -/
def extractGif (dir : String) (w : World) : Option GoError × World :=
  let w := log_Print [LogArg.str "Extracting ", LogArg.str dir] w
  let pattern := "frame_%05d.png"
  let cmd := exec_Command "convert" ["-coalesce", "in.gif", pattern]
  let cmd := { cmd with Dir := dir }
  cmd.Run w

/-- Source `convertFramesToMP4`. -/
def convertFramesToMP4 (dir : String) (w : World) : (String × Option GoError) × World :=
  let w := log_Print [LogArg.str "Encoding ", LogArg.str dir, LogArg.str " to mp4"] w
  match extractGif dir w with
  | (some err, w) => (("", some err), w)
  | (none, w) =>
    let outFname := "out.mp4"
    let pattern := "frame_%05d.png"
    let cmd := exec_Command "ffmpeg"
      ["-i", pattern,
       "-pix_fmt", "yuv420p",
       "-vf", "scale=trunc(in_w/2)*2:trunc(in_h/2)*2",
       outFname]
    let cmd := { cmd with Dir := dir }
    match cmd.Run w with
    | (some err, w) => (("", some err), w)
    | (none, w) => ((path_Join [dir, outFname], none), w)

/-- Source `convertGifToMP4`. -/
def convertGifToMP4 (dir : String) (w : World) : (String × Option GoError) × World :=
  let fname := path_Join [dir, "in.gif"]
  let w := log_Print [LogArg.str "Encoding ", LogArg.str fname, LogArg.str " to mp4"] w
  let outFname := "out.mp4"
  let cmd := exec_Command "ffmpeg"
    ["-i", fname,
     "-movflags", "faststart",
     "-pix_fmt", "yuv420p",
     "-vf", "scale=trunc(in_w/2)*2:trunc(in_h/2)*2",
     outFname]
  let cmd := { cmd with Dir := filepath_Dir fname }
  match cmd.Run w with
  | (some err, w) => (("", some err), w)
  | (none, w) => ((path_Join [filepath_Dir fname, outFname], none), w)

/-- Source `convertFramesToOGV`. -/
def convertFramesToOGV (dir : String) (w : World) : (String × Option GoError) × World :=
  let w := log_Print [LogArg.str "Encoding ", LogArg.str dir, LogArg.str " to ogv"] w
  match extractGif dir w with
  | (some err, w) => (("", some err), w)
  | (none, w) =>
    let outFname := "out.ogv"
    let pattern := "frame_%05d.png"
    let cmd := exec_Command "ffmpeg"
      ["-i", pattern,
       "-q", "5",
       "-pix_fmt", "yuv420p",
       outFname]
    let cmd := { cmd with Dir := dir }
    match cmd.Run w with
    | (some err, w) => (("", some err), w)
    | (none, w) => ((path_Join [dir, outFname], none), w)

/-- Source `convertToFrame`. -/
def convertToFrame (dir : String) (w : World) : (String × Option GoError) × World :=
  match extractGif dir w with
  | (some err, w) => (("", some err), w)
  | (none, w) => ((path_Join [dir, "frame_00001.png"], none), w)

/-- Source `cleanDir`. -/
def cleanDir (dir : String) (w : World) : World :=
  let w := log_Print [LogArg.str "Removing ", LogArg.str dir] w
  match os_RemoveAll dir w with
  | (some err, w) => log_Print [LogArg.str "Warning: ", LogArg.err err] w
  | (none, w) => w

/-- Source `prepareConversion`.  The deferred `output.Close()` runs on the two
returns that follow it. -/
def prepareConversion (reader : Reader) (w : World) : (String × Option GoError) × World :=
  match ioutil_TempDir "" "gifserver" w with
  | ((_, some err), w) => (("", some err), w)
  | ((dir, none), w) =>
    let output := path_Join [dir, "in.gif"]
    match os_Create output w with
    | (some err, w) =>
      let w := cleanDir dir w
      (("", some err), w)
    | (none, w) =>
      match io_Copy output reader w with
      | ((_, some err), w) =>
        let w := cleanDir dir w
        (("", some err), File_Close output w)
      | ((_, none), w) => ((dir, none), File_Close output w)

/-- Source `copyFile`.  `defer input.Close()` is reached only on the last return;
`defer output.Close()` runs on the two returns that follow it, and after the
deferred `input.Close()` on the last. -/
def copyFile (src dest : String) (w : World) : Option GoError × World :=
  let w := log_Print [LogArg.str "Copying ", LogArg.str src, LogArg.str " to ",
    LogArg.str dest] w
  match os_Open src w with
  | (some err, w) => (some err, w)
  | (none, w) =>
    match os_Create dest w with
    | (some err, w) => (some err, w)
    | (none, w) =>
      match io_Copy dest (Reader.file src) w with
      | ((_, some err), w) => (some err, File_Close dest w)
      | ((_, none), w) => (none, File_Close dest (File_Close src w))

/-- Source `converter`: the type of the four strategies. -/
abbrev converter := String → World → (String × Option GoError) × World

/-- The four strategies. -/
def strategies : List converter :=
  [convertGifToMP4, convertFramesToMP4, convertFramesToOGV, convertToFrame]

/-- How a strategy's run ends, as one statement about its result `r` from the
world `w`: the commands it ran are `pre` and then `c`; those in `pre` returned no
error; the programs run are pairwise different; nothing ran before a `convert`
that is last; `c` was run on the file system `fs0` and its error is the strategy's;
without error the tool exited with status zero and left the returned file system;
with an error the returned path is empty and the error is the start error or the
exit error with the tool's exit code and an empty `Stderr`. -/
def EndsWith (w : World) (r : (String × Option GoError) × World) : Prop :=
  ∃ (pre : List (Cmd × Option GoError)) (c : Cmd) (fs0 : FS),
    r.2.ran = w.ran ++ pre ++ [(c, r.1.2)] ∧
    (∀ x ∈ pre, x.2 = none) ∧
    ((pre ++ [(c, r.1.2)]).map (fun x => x.1.Path)).Nodup ∧
    (c.Path = "convert" → pre = []) ∧
    (r.1.2 = none → ∃ txt, w.tool c fs0 = Exit.exited 0 txt r.2.fs) ∧
    (∀ e, r.1.2 = some e → r.1.1 = "" ∧
      (w.tool c fs0 = Exit.notStarted e ∨
        ∃ code txt fs, w.tool c fs0 = Exit.exited code txt fs ∧ code ≠ 0 ∧
          e = GoError.exitError code []))

/-! ## The commands the strategies run -/

/-- The command `extractGif` runs for `dir`. -/
def extractCmd (dir : String) : Cmd :=
  { exec_Command "convert" ["-coalesce", "in.gif", "frame_%05d.png"] with Dir := dir }

/-- The command `convertFramesToMP4` runs for `dir` after the extraction. -/
def framesToMP4Cmd (dir : String) : Cmd :=
  { exec_Command "ffmpeg"
      ["-i", "frame_%05d.png",
       "-pix_fmt", "yuv420p",
       "-vf", "scale=trunc(in_w/2)*2:trunc(in_h/2)*2",
       "out.mp4"] with Dir := dir }

/-- The command `convertGifToMP4` runs for `dir`. -/
def gifToMP4Cmd (dir : String) : Cmd :=
  { exec_Command "ffmpeg"
      ["-i", path_Join [dir, "in.gif"],
       "-movflags", "faststart",
       "-pix_fmt", "yuv420p",
       "-vf", "scale=trunc(in_w/2)*2:trunc(in_h/2)*2",
       "out.mp4"] with Dir := filepath_Dir (path_Join [dir, "in.gif"]) }

/-- The command `convertFramesToOGV` runs for `dir` after the extraction. -/
def framesToOGVCmd (dir : String) : Cmd :=
  { exec_Command "ffmpeg"
      ["-i", "frame_%05d.png",
       "-q", "5",
       "-pix_fmt", "yuv420p",
       "out.ogv"] with Dir := dir }

/-! ## Sample tools, worlds and inputs -/

/-- The file system with nothing in it. -/
def FS.empty : FS := fun _ => none

/-- The frame names of the extractor: the first `%05d` of the pattern is replaced
by the index in decimal, padded with zeros on the left to five digits (the C
`printf` convention the pattern is written in). -/
def expandPattern : List Char → Nat → List Char
  | [], _ => []
  | c :: cs, i =>
    if ['%', '0', '5', 'd'].isPrefixOf (c :: cs) then
      List.replicate (5 - (Nat.toDigits 10 i).length) '0' ++ Nat.toDigits 10 i ++ cs.drop 3
    else c :: expandPattern cs i

/-- Tools that do their work: `convert` leaves two frames, numbered 0 and 1, in
its working directory; any other program leaves a file named by its last argument
there.  Both exit with status zero. -/
def toolsWork : Cmd → FS → Exit := fun c fs =>
  if c.Path = "convert" then
    Exit.exited 0 []
      ((fs.write (path_Join [c.Dir, "frame_00000.png"]) (Node.file [1])).write
        (path_Join [c.Dir, "frame_00001.png"]) (Node.file [2]))
  else Exit.exited 0 [] (fs.write (path_Join [c.Dir, c.Args.getLastD ""]) (Node.file [3]))

/-- A `convert` given a one-frame image: it numbers the frames it writes from 0, so
it leaves `frame_00000.png` only, and exits with status zero. -/
def toolsSingleFrame : Cmd → FS → Exit := fun c fs =>
  if c.Path = "convert" then
    Exit.exited 0 [] (fs.write (path_Join [c.Dir, "frame_00000.png"]) (Node.file [1]))
  else Exit.exited 0 [] (fs.write (path_Join [c.Dir, c.Args.getLastD ""]) (Node.file [3]))

/-- A `convert` that works and an encoder that exits with status 1 after writing a
message to its standard error. -/
def toolsEncoderFails : Cmd → FS → Exit := fun c fs =>
  if c.Path = "convert" then
    Exit.exited 0 []
      ((fs.write (path_Join [c.Dir, "frame_00000.png"]) (Node.file [1])).write
        (path_Join [c.Dir, "frame_00001.png"]) (Node.file [2]))
  else Exit.exited 1 "Unknown encoder".data fs

/-- A `convert` that exits with status 1 after writing a message to its standard
error. -/
def toolsExtractFails : Cmd → FS → Exit := fun _ fs =>
  Exit.exited 1 "no decode delegate".data fs

/-- A world with the given file system, fault schedule and tools: `$TMPDIR` unset,
the runtime drawing 42. -/
def World.start (fs : FS) (faults : List (Option Fault)) (tool : Cmd → FS → Exit) : World :=
  { fs := fs, faults := faults, TMPDIR := "", rands := [42], tool := tool,
    ran := [], log := [], openFiles := [] }

/-- A decoder for the examples: it accepts a stream that starts with the six-byte
signature `GIF89a` and reads the little-endian 16-bit width and height that
follow; everything else is refused. -/
def headerDecodeConfig : Reader → Config × Option GoError
  | Reader.stream (71 :: 73 :: 70 :: 56 :: 57 :: 97 :: w0 :: w1 :: h0 :: h1 :: _) _ =>
    (⟨w0.val + 256 * w1.val, h0.val + 256 * h1.val⟩, none)
  | _ => (⟨0, 0⟩, some (GoError.other "gif: can't recognize format"))

/-- The header of a 300 by 200 image. -/
def header300x200 : Reader :=
  Reader.stream [71, 73, 70, 56, 57, 97, 44, 1, 200, 0, 0, 0, 0] none

/-! ## Facts about the lexical path functions -/

theorem elems_ne_nil (s : List Char) : elems s ≠ [] := by
  cases s with
  | nil => simp [elems]
  | cons c cs =>
    simp only [elems]
    split
    · simp
    · split <;> simp

theorem elems_cons_slash (s : List Char) : elems ('/' :: s) = [] :: elems s := by
  simp [elems]

theorem elems_append_slash (a b : List Char) :
    elems (a ++ '/' :: b) = elems a ++ elems b := by
  induction a with
  | nil => simp [elems]
  | cons c cs ih =>
    by_cases hc : c = '/'
    · simp [elems, hc, ih]
    · simp only [List.cons_append, elems, hc, if_false]
      have ih2 : elems (cs.append ('/' :: b)) = elems cs ++ elems b := ih
      rw [ih2]
      cases h : elems cs with
      | nil => exact absurd h (elems_ne_nil cs)
      | cons e es => simp

theorem elems_of_no_slash (e : List Char) (h : '/' ∉ e) : elems e = [e] := by
  induction e with
  | nil => simp [elems]
  | cons c cs ih =>
    have hc : c ≠ '/' := fun hc => h (by simp [hc])
    have hcs : '/' ∉ cs := fun hm => h (List.mem_cons_of_mem _ hm)
    simp [elems, hc, ih hcs]

theorem elems_mem_no_slash (s e : List Char) (h : e ∈ elems s) : '/' ∉ e := by
  induction s generalizing e with
  | nil => simp [elems] at h; simp [h]
  | cons c cs ih =>
    by_cases hc : c = '/'
    · simp only [elems, hc, if_true, List.mem_cons] at h
      rcases h with rfl | h
      · simp
      · exact ih e h
    · simp only [elems, hc, if_false] at h
      cases hs : elems cs with
      | nil => exact absurd hs (elems_ne_nil cs)
      | cons e1 es =>
        rw [hs] at h
        simp only [List.mem_cons] at h
        rcases h with rfl | h
        · have h1 : '/' ∉ e1 := ih e1 (by simp [hs])
          intro hm
          simp only [List.mem_cons] at hm
          rcases hm with hm | hm
          · exact hc hm.symm
          · exact h1 hm
        · exact ih e (by simp [hs, h])

theorem joinElems_append_singleton (L : List (List Char)) (x : List Char) (hL : L ≠ []) :
    joinElems (L ++ [x]) = joinElems L ++ '/' :: x := by
  induction L with
  | nil => exact absurd rfl hL
  | cons e es ih =>
    cases es with
    | nil => simp [joinElems]
    | cons e2 es2 =>
      have := ih (by simp)
      simp only [List.cons_append] at this ⊢
      simp [joinElems, this]

theorem elems_joinElems (L : List (List Char)) (hL : L ≠ [])
    (h : ∀ e ∈ L, '/' ∉ e) : elems (joinElems L) = L := by
  induction L with
  | nil => exact absurd rfl hL
  | cons e es ih =>
    cases es with
    | nil => simpa [joinElems] using elems_of_no_slash e (h e (by simp))
    | cons e2 es2 =>
      have h1 := ih (by simp) (fun x hx => h x (List.mem_cons_of_mem _ hx))
      simp only [joinElems, elems_append_slash, h1]
      rw [elems_of_no_slash e (h e (by simp))]
      rfl

theorem cleanStep_nil (r : Bool) (b : Lazybuf) : cleanStep r b [] = b := by
  simp [cleanStep]

theorem cleanStep_name (r : Bool) (b : Lazybuf) (n : List Char) (h : IsName n) :
    cleanStep r b n = b.push n := by
  obtain ⟨h1, h2, h3, _⟩ := h
  simp [cleanStep, h1, h2, h3, Lazybuf.push]

theorem cleanStep_ok (r : Bool) (b : Lazybuf) (e : List Char) (hb : BufOk r b)
    (he : '/' ∉ e) : BufOk r (cleanStep r b e) := by
  unfold cleanStep
  split_ifs with h1 h2 h3 h4 h5
  · exact hb
  · exact hb
  · exact ⟨hb.1, fun n hn => hb.2 n ((List.dropLast_sublist _).subset hn)⟩
  · refine ⟨?_, hb.2⟩
    intro hr
    simp [hr] at h5
  · exact hb
  · refine ⟨hb.1, ?_⟩
    intro n hn
    simp only [List.mem_append, List.mem_singleton] at hn
    rcases hn with hn | rfl
    · exact hb.2 n hn
    · exact ⟨h1, h2, h3, he⟩

theorem foldl_cleanStep_ok (r : Bool) (es : List (List Char)) (b : Lazybuf)
    (hb : BufOk r b) (hes : ∀ e ∈ es, '/' ∉ e) :
    BufOk r (es.foldl (cleanStep r) b) := by
  induction es generalizing b with
  | nil => simpa using hb
  | cons e es ih =>
    simp only [List.foldl_cons]
    exact ih _ (cleanStep_ok r b e hb (hes e (by simp)))
      (fun x hx => hes x (List.mem_cons_of_mem _ hx))

theorem cleanRun_ok (p : List Char) : BufOk (p.head? == some '/') (cleanRun p) :=
  foldl_cleanStep_ok _ _ _ ⟨fun _ => rfl, fun _ h => by simp at h⟩
    (fun e he => elems_mem_no_slash p e he)

theorem push_ok (r : Bool) (b : Lazybuf) (n : List Char) (hb : BufOk r b)
    (hn : IsName n) : BufOk r (b.push n) := by
  refine ⟨hb.1, ?_⟩
  intro m hm
  simp only [Lazybuf.push, List.mem_append, List.mem_singleton] at hm
  rcases hm with hm | rfl
  · exact hb.2 m hm
  · exact hn

theorem foldl_cleanStep_names (r : Bool) (ns : List (List Char)) (b : Lazybuf)
    (h : ∀ n ∈ ns, IsName n) :
    ns.foldl (cleanStep r) b = ⟨b.dotdot, b.names ++ ns⟩ := by
  induction ns generalizing b with
  | nil => simp
  | cons n ns ih =>
    simp only [List.foldl_cons]
    rw [cleanStep_name r b n (h n (by simp)),
      ih _ (fun x hx => h x (List.mem_cons_of_mem _ hx))]
    simp [Lazybuf.push]

theorem foldl_cleanStep_dotdots (m k : Nat) :
    (List.replicate m ['.', '.']).foldl (cleanStep false) ⟨k, []⟩ = ⟨k + m, []⟩ := by
  induction m generalizing k with
  | zero => simp
  | succ m ih =>
    simp only [List.replicate_succ, List.foldl_cons]
    have h1 : cleanStep false ⟨k, []⟩ ['.', '.'] = ⟨k + 1, []⟩ := by
      simp [cleanStep]
    rw [h1, ih]
    congr 1
    omega

theorem foldl_cleanStep_elements (r : Bool) (b : Lazybuf) (hb : BufOk r b) :
    b.elements.foldl (cleanStep r) ⟨0, []⟩ = b := by
  cases r with
  | true =>
    have h0 := hb.1 rfl
    simp only [Lazybuf.elements, h0, List.replicate_zero, List.nil_append]
    rw [foldl_cleanStep_names true b.names ⟨0, []⟩ hb.2]
    cases b
    simp_all
  | false =>
    simp only [Lazybuf.elements, List.foldl_append]
    rw [foldl_cleanStep_dotdots, foldl_cleanStep_names false b.names _ hb.2]
    cases b
    simp

theorem elements_ok (r : Bool) (b : Lazybuf) (hb : BufOk r b) :
    ∀ e ∈ b.elements, e ≠ [] ∧ '/' ∉ e := by
  intro e he
  simp only [Lazybuf.elements, List.mem_append] at he
  rcases he with he | he
  · have := List.eq_of_mem_replicate he
    subst this
    exact ⟨by simp, by decide⟩
  · exact ⟨(hb.2 e he).1, (hb.2 e he).2.2.2⟩

theorem elements_push (b : Lazybuf) (n : List Char) :
    (b.push n).elements = b.elements ++ [n] := by
  simp [Lazybuf.elements, Lazybuf.push]

theorem string_push (r : Bool) (b : Lazybuf) (n : List Char) :
    (b.push n).string r =
      if b.elements = [] then (if r then ['/'] else []) ++ n
      else b.string r ++ '/' :: n := by
  have he : (b.push n).string r =
      (if r then ['/'] else []) ++ joinElems (b.elements ++ [n]) := by
    simp [Lazybuf.string, Lazybuf.elements, Lazybuf.push]
  rw [he]
  by_cases h : b.elements = []
  · simp [h, joinElems]
  · rw [joinElems_append_singleton _ _ h, if_neg h]
    simp [Lazybuf.string, Lazybuf.elements]

theorem string_push_ne_nil (r : Bool) (b : Lazybuf) (n : List Char) (hn : n ≠ []) :
    (b.push n).string r ≠ [] := by
  rw [string_push]
  split_ifs <;> simp [hn]

theorem head_append_of_ne_nil (p q : List Char) (hp : p ≠ []) :
    (p ++ q).head? = p.head? := by
  cases p with
  | nil => exact absurd rfl hp
  | cons c cs => rfl

theorem Clean_eq_of_ne_nil (p : List Char) (hp : p ≠ [])
    (hs : (cleanRun p).string (p.head? == some '/') ≠ []) :
    Clean p = (cleanRun p).string (p.head? == some '/') := by
  unfold Clean
  rw [if_neg hp]
  show (if (cleanRun p).string (p.head? == some '/') = [] then ['.']
    else (cleanRun p).string (p.head? == some '/')) = _
  rw [if_neg hs]

theorem cleanRun_append_name (p n : List Char) (hp : p ≠ []) (hn : IsName n) :
    cleanRun (p ++ '/' :: n) = (cleanRun p).push n := by
  unfold cleanRun
  rw [head_append_of_ne_nil p _ hp, elems_append_slash, elems_of_no_slash n hn.2.2.2,
    List.foldl_append]
  simp only [List.foldl_cons, List.foldl_nil]
  exact cleanStep_name _ _ n hn

theorem cleanRun_append_slash (p : List Char) (hp : p ≠ []) :
    cleanRun (p ++ ['/']) = cleanRun p := by
  unfold cleanRun
  rw [head_append_of_ne_nil p _ hp, elems_append_slash, List.foldl_append]
  simp [elems, cleanStep_nil]

/-- Cleaning `p/n`, for a non-empty `p` and a name `n`, writes `n` after what
cleaning `p` leaves in the buffer. -/
theorem Clean_append_name (p n : List Char) (hp : p ≠ []) (hn : IsName n) :
    Clean (p ++ '/' :: n) = ((cleanRun p).push n).string (p.head? == some '/') := by
  have h1 : p ++ '/' :: n ≠ [] := by simp
  rw [Clean_eq_of_ne_nil _ h1, cleanRun_append_name p n hp hn,
    head_append_of_ne_nil p _ hp]
  rw [cleanRun_append_name p n hp hn, head_append_of_ne_nil p _ hp]
  exact string_push_ne_nil _ _ n hn.1

theorem joinElems_head (L : List (List Char)) (hL : L ≠ [])
    (h : ∀ e ∈ L, e ≠ [] ∧ '/' ∉ e) :
    ((joinElems L).head? == some '/') = false ∧ joinElems L ≠ [] := by
  cases L with
  | nil => exact absurd rfl hL
  | cons e es =>
    obtain ⟨h1, h2⟩ := h e (by simp)
    cases e with
    | nil => exact absurd rfl h1
    | cons c cs =>
      have hc : c ≠ '/' := fun hc => h2 (by simp [hc])
      cases es with
      | nil => simp [joinElems, hc]
      | cons e2 es2 => simp [joinElems, hc]

/-- A buffer that is not the empty relative one is a fixed point: its string is
rooted as the buffer is, non-empty, and cleaning it runs back to the buffer. -/
theorem string_facts (r : Bool) (b : Lazybuf) (hb : BufOk r b)
    (hne : r = true ∨ b.elements ≠ []) :
    ((b.string r).head? == some '/') = r ∧ cleanRun (b.string r) = b ∧
      b.string r ≠ [] := by
  have hel := elements_ok r b hb
  cases r with
  | true =>
    have hs : b.string true = '/' :: joinElems b.elements := by
      simp [Lazybuf.string, Lazybuf.elements]
    refine ⟨by simp [hs], ?_, by simp [hs]⟩
    rw [hs]
    unfold cleanRun
    rw [elems_cons_slash]
    simp only [List.head?_cons, beq_self_eq_true, List.foldl_cons, cleanStep_nil]
    by_cases he : b.elements = []
    · have hd : b.dotdot = 0 := hb.1 rfl
      have hn : b.names = [] := by
        simpa [Lazybuf.elements, hd] using he
      rw [he]
      cases b
      simp_all [joinElems, elems, cleanStep_nil]
    · rw [elems_joinElems _ he (fun e h => (hel e h).2)]
      exact foldl_cleanStep_elements true b hb
  | false =>
    have he : b.elements ≠ [] := by
      rcases hne with h | h
      · exact absurd h (by simp)
      · exact h
    have hs : b.string false = joinElems b.elements := by
      simp [Lazybuf.string, Lazybuf.elements]
    obtain ⟨h1, h2⟩ := joinElems_head _ he hel
    refine ⟨by rw [hs]; exact h1, ?_, by rw [hs]; exact h2⟩
    rw [hs]
    unfold cleanRun
    rw [h1, elems_joinElems _ he (fun e h => (hel e h).2)]
    exact foldl_cleanStep_elements false b hb

theorem Clean_string_append_name (r : Bool) (b : Lazybuf) (n : List Char)
    (hb : BufOk r b) (hne : r = true ∨ b.elements ≠ []) (hn : IsName n) :
    Clean (b.string r ++ '/' :: n) = (b.push n).string r := by
  obtain ⟨h1, h2, h3⟩ := string_facts r b hb hne
  rw [Clean_append_name _ n h3 hn, h1, h2]

theorem Clean_string_append_slash (r : Bool) (b : Lazybuf)
    (hb : BufOk r b) (hne : r = true ∨ b.elements ≠ []) :
    Clean (b.string r ++ ['/']) = b.string r := by
  obtain ⟨h1, h2, h3⟩ := string_facts r b hb hne
  have h4 : b.string r ++ ['/'] ≠ [] := by simp
  rw [Clean_eq_of_ne_nil _ h4] <;>
    rw [cleanRun_append_slash _ h3, head_append_of_ne_nil _ _ h3, h1, h2]
  exact h3

theorem Join_pair (d n : List Char) (hd : d ≠ []) :
    Join [d, n] = Clean (d ++ '/' :: n) := by
  simp [Join, hd, joinElems]

theorem Join_nil_pair (n : List Char) (hn : n ≠ []) : Join [[], n] = Clean n := by
  simp [Join, hn, joinElems]

theorem Clean_name (n : List Char) (hn : IsName n) : Clean n = n := by
  have hb : BufOk false (Lazybuf.push ⟨0, []⟩ n) :=
    push_ok false _ n ⟨fun h => by simp at h, fun _ h => by simp at h⟩ hn
  have hs : (Lazybuf.push ⟨0, []⟩ n).string false = n := by
    simp [Lazybuf.push, Lazybuf.string, joinElems]
  obtain ⟨h1, h2, h3⟩ := string_facts false _ hb
    (Or.inr (by simp [Lazybuf.elements, Lazybuf.push]))
  rw [hs] at h1 h2 h3
  rw [Clean_eq_of_ne_nil n h3] <;> rw [h1, h2, hs]
  exact h3

theorem dropWhile_append_of_all (p : Char → Bool) (a b : List Char)
    (h : ∀ c ∈ a, p c = true) : (a ++ b).dropWhile p = b.dropWhile p := by
  induction a with
  | nil => rfl
  | cons c cs ih =>
    simp only [List.cons_append, List.dropWhile_cons, h c (by simp), if_true]
    exact ih (fun x hx => h x (List.mem_cons_of_mem _ hx))

theorem dirPrefix_append (x n : List Char) (hn : '/' ∉ n) :
    (((x ++ '/' :: n).reverse).dropWhile (fun c => c != '/')).reverse = x ++ ['/'] := by
  have hr : (x ++ '/' :: n).reverse = n.reverse ++ '/' :: x.reverse := by simp
  rw [hr, dropWhile_append_of_all]
  · simp [List.dropWhile_cons]
  · intro c hc
    have : c ≠ '/' := fun h => hn (by simpa [h] using hc)
    simpa using this

theorem dirPrefix_name (n : List Char) (hn : '/' ∉ n) :
    ((n.reverse).dropWhile (fun c => c != '/')).reverse = [] := by
  have h := dropWhile_append_of_all (fun c => c != '/') n.reverse [] (by
    intro c hc
    have : c ≠ '/' := fun h => hn (by simpa [h] using hc)
    simpa using this)
  simp only [List.append_nil] at h
  rw [h]
  rfl

/-- The directory of a cleaned path that ends in a name is what was cleaned before
the name was written (`.` when that is the empty relative path). -/
theorem Dir_string_push (r : Bool) (b : Lazybuf) (n : List Char)
    (hb : BufOk r b) (hn : IsName n) :
    Dir ((b.push n).string r) =
      if r = false ∧ b.elements = [] then ['.'] else b.string r := by
  unfold Dir
  rw [string_push]
  by_cases he : b.elements = []
  · rw [if_pos he]
    cases r with
    | true =>
      have hd : b.dotdot = 0 := hb.1 rfl
      have hx : (if true = true then ['/'] else []) ++ n = [] ++ '/' :: n := by simp
      rw [hx, dirPrefix_append [] n hn.2.2.2]
      have hs : b.string true = ['/'] := by
        simp only [Lazybuf.elements] at he
        simp [Lazybuf.string, he, joinElems]
      simp only [hs]
      have hc : Clean ([] ++ ['/']) = ['/'] := by decide
      rw [hc, if_neg (by simp)]
    | false =>
      have hx : (if false = true then ['/'] else []) ++ n = n := by simp
      rw [hx, dirPrefix_name n hn.2.2.2]
      simp [he, Clean]
  · rw [if_neg he, dirPrefix_append _ n hn.2.2.2]
    have hne : r = true ∨ b.elements ≠ [] := Or.inr he
    rw [Clean_string_append_slash r b hb hne, if_neg (by simp [he])]

/-- For every directory string, the directory of `Join(dir, n)` joined with a name
`m` is `Join(dir, m)`: the two ways of forming a sibling of the staged file agree. -/
theorem Join_Dir_Join (dir n m : List Char) (hn : IsName n) (hm : IsName m) :
    Join [Dir (Join [dir, n]), m] = Join [dir, m] := by
  by_cases hd : dir = []
  · subst hd
    rw [Join_nil_pair n hn.1, Join_nil_pair m hm.1, Clean_name n hn, Clean_name m hm]
    have h1 : Dir n = ['.'] := by
      unfold Dir
      rw [dirPrefix_name n hn.2.2.2]
      decide
    rw [h1, Join_pair _ _ (by simp), Clean_append_name ['.'] m (by simp) hm]
    have h2 : cleanRun ['.'] = ⟨0, []⟩ := by decide
    rw [h2]
    simp [Lazybuf.push, Lazybuf.string, joinElems]
  · have hb := cleanRun_ok dir
    rw [Join_pair dir n hd, Join_pair dir m hd, Clean_append_name dir n hd hn,
      Clean_append_name dir m hd hm, Dir_string_push _ _ n hb hn]
    by_cases hc : (dir.head? == some '/') = false ∧ (cleanRun dir).elements = []
    · rw [if_pos hc, Join_pair _ _ (by simp), Clean_append_name ['.'] m (by simp) hm]
      have h2 : cleanRun ['.'] = ⟨0, []⟩ := by decide
      have h3 : cleanRun dir = ⟨0, []⟩ := by
        have := hc.2
        cases hcr : cleanRun dir with
        | mk k ns =>
          rw [hcr] at this
          simp only [Lazybuf.elements, List.append_eq_nil, List.replicate_eq_nil_iff] at this
          simp [this.1, this.2]
      rw [h2, h3, hc.1]
      rfl
    · rw [if_neg hc]
      have hne : (dir.head? == some '/') = true ∨ (cleanRun dir).elements ≠ [] := by
        by_cases hr : (dir.head? == some '/') = true
        · exact Or.inl hr
        · right
          intro he
          exact hc ⟨by simpa using hr, he⟩
      obtain ⟨_, _, h3⟩ := string_facts _ _ hb hne
      rw [Join_pair _ _ h3, Clean_string_append_name _ _ m hb hne hm]

/-- A name joined to a path that was itself produced by joining a name to a
non-empty root is that path, a slash, and the name: the staged file lies directly
beneath the staging directory. -/
theorem Join_Join_child (root name n : List Char) (hroot : root ≠ [])
    (hname : IsName name) (hn : IsName n) :
    Join [Join [root, name], n] = Join [root, name] ++ '/' :: n := by
  have hb := push_ok _ _ name (cleanRun_ok root) hname
  have hne : (root.head? == some '/') = true ∨ ((cleanRun root).push name).elements ≠ [] :=
    Or.inr (by simp [elements_push])
  rw [Join_pair root name hroot, Clean_append_name root name hroot hname]
  obtain ⟨_, _, h3⟩ := string_facts _ _ hb hne
  rw [Join_pair _ _ h3, Clean_string_append_name _ _ n hb hne hn, string_push,
    if_neg (by simp [elements_push])]

/-! ## Facts about the system calls -/

theorem FS_write_same (fs : FS) (p : String) (n : Node) : (fs.write p n) p = some n := by
  simp [FS.write]

theorem FS_write_other (fs : FS) (p q : String) (n : Node) (h : q ≠ p) :
    (fs.write p n) q = fs q := by
  simp [FS.write, h]

theorem File_Close_fs (name : String) (w : World) : (File_Close name w).fs = w.fs := rfl

/-- C4: for limits that are not negative, `checkDimensions` returns no error exactly
when the header decodes to some width and height, the width is within `maxWidth` or
`maxWidth` is 0, and the height is within `maxHeight` or `maxHeight` is 0; in
particular an image whose dimensions equal the limits is accepted, and with both
limits 0 every decodable input is accepted. -/
theorem checkDimensions_ok_iff (DecodeConfig : Reader → Config × Option GoError)
    (reader : Reader) (maxWidth maxHeight : Int)
    (hw : 0 ≤ maxWidth) (hh : 0 ≤ maxHeight) :
    (checkDimensions DecodeConfig reader maxWidth maxHeight = none ↔
      ∃ width height, DecodeConfig reader = (⟨width, height⟩, none) ∧
        (maxWidth = 0 ∨ width ≤ maxWidth) ∧ (maxHeight = 0 ∨ height ≤ maxHeight)) ∧
    (DecodeConfig reader = (⟨maxWidth, maxHeight⟩, none) →
      checkDimensions DecodeConfig reader maxWidth maxHeight = none) ∧
    (∀ cfg, DecodeConfig reader = (cfg, none) →
      checkDimensions DecodeConfig reader 0 0 = none) := by
  refine ⟨?_, ?_, ?_⟩
  · unfold checkDimensions
    rcases hd : DecodeConfig reader with ⟨⟨width, height⟩, _ | err⟩
    · simp only [Prod.mk.injEq, Config.mk.injEq, and_true]
      constructor
      · intro h
        refine ⟨width, height, ⟨rfl, rfl⟩, ?_, ?_⟩
        · by_contra hc
          push_neg at hc
          have h1 : maxWidth > 0 ∧ width > maxWidth := ⟨by omega, by omega⟩
          simp [h1] at h
        · by_contra hc
          push_neg at hc
          have h1 : maxHeight > 0 ∧ height > maxHeight := ⟨by omega, by omega⟩
          by_cases h2 : maxWidth > 0 ∧ width > maxWidth
          · simp [h2] at h
          · rw [if_neg h2, if_pos h1] at h
            exact absurd h (by simp)
      · rintro ⟨w1, h1, ⟨rfl, rfl⟩, h2, h3⟩
        have a1 : ¬ (maxWidth > 0 ∧ width > maxWidth) := by omega
        have a2 : ¬ (maxHeight > 0 ∧ height > maxHeight) := by omega
        simp [a1, a2]
    · simp
  · intro hd
    simp [checkDimensions, hd]
  · intro cfg hd
    simp [checkDimensions, hd]

/-- C5: for a decodable input whose width exceeds a positive `maxWidth`, whatever
`maxHeight` and the height are, `checkDimensions` fails with the width error, which
carries the actual width and the limit, and never with the height error. -/
theorem checkDimensions_width_error (DecodeConfig : Reader → Config × Option GoError)
    (reader : Reader) (maxWidth maxHeight : Int) (cfg : Config)
    (hd : DecodeConfig reader = (cfg, none))
    (hpos : 0 < maxWidth) (hwide : maxWidth < cfg.Width) :
    checkDimensions DecodeConfig reader maxWidth maxHeight =
        some (GoError.errorf "Image width too large %d > %d" [cfg.Width, maxWidth]) ∧
      ∀ args, checkDimensions DecodeConfig reader maxWidth maxHeight ≠
        some (GoError.errorf "Image height too large %d > %d" args) := by
  have h : checkDimensions DecodeConfig reader maxWidth maxHeight =
      some (GoError.errorf "Image width too large %d > %d" [cfg.Width, maxWidth]) := by
    have h1 : maxWidth > 0 ∧ cfg.Width > maxWidth := ⟨hpos, hwide⟩
    simp [checkDimensions, hd, h1]
  refine ⟨h, ?_⟩
  intro args
  rw [h]
  intro hc
  have := Option.some.inj hc
  injection this with h1 h2
  exact absurd h1 (by decide)

/-- C2: when `prepareConversion` returns a directory and no error for a byte
stream, `path.Join(dir, "in.gif")` is a file whose content is exactly the bytes of
the stream, in order. -/
theorem prepareConversion_stages_input (data : List Byte) (rerr : Option GoError)
    (w : World) (dir : String)
    (h : (prepareConversion (Reader.stream data rerr) w).1 = (dir, none)) :
    (prepareConversion (Reader.stream data rerr) w).2.fs (path_Join [dir, "in.gif"]) =
      some (Node.file data) := by
  unfold prepareConversion at h ⊢
  rcases h1 : ioutil_TempDir "" "gifserver" w with ⟨⟨d, _ | e1⟩, w1⟩
  · simp only [h1] at h ⊢
    rcases h2 : os_Create (path_Join [d, "in.gif"]) w1 with ⟨_ | e2, w2⟩
    · simp only [h2] at h ⊢
      unfold io_Copy at h ⊢
      simp only [Reader.readAll] at h ⊢
      rcases h3 : w2.popFault with ⟨_ | f, w3⟩
      · simp only [h3] at h ⊢
        cases rerr with
        | none =>
          simp only [Prod.mk.injEq, and_true] at h
          subst h
          simp [File_Close_fs, FS_write_same]
        | some e => simp at h
      · simp [h3] at h
    · simp [h2] at h
  · simp [h1] at h

theorem popFault_fs (w : World) : w.popFault.2.fs = w.fs := by
  unfold World.popFault
  cases w.faults <;> rfl

theorem os_Create_ok (name : String) (w : World) (h : (os_Create name w).1 = none) :
    (os_Create name w).2.fs = w.fs.write name (Node.file []) := by
  unfold os_Create at h ⊢
  have hf := popFault_fs w
  rcases hp : w.popFault with ⟨_ | f, w1⟩
  · rw [hp] at hf
    simp only at hf
    simp only [hp, hf] at h ⊢
    cases hn : w.fs name with
    | none => simp [hf]
    | some n =>
      cases n with
      | dir => simp [hn] at h
      | file c => simp [hf]
  · simp [hp] at h

theorem io_Copy_ok (dst : String) (src : Reader) (w : World)
    (h : (io_Copy dst src w).1.2 = none) :
    (src.readAll w.fs).2 = none ∧
      (io_Copy dst src w).2.fs = w.fs.write dst (Node.file (src.readAll w.fs).1) := by
  unfold io_Copy at h ⊢
  have hf := popFault_fs w
  rcases hr : src.readAll w.fs with ⟨data, rerr⟩
  rcases hp : w.popFault with ⟨_ | f, w1⟩
  · rw [hp] at hf
    simp only at hf
    simp only [hr, hp] at h ⊢
    exact ⟨h, by simp [hf]⟩
  · simp [hr, hp] at h

theorem digitChar_ok : ∀ n, n < 10 → Nat.digitChar n ≠ '/' ∧ Nat.digitChar n ≠ '.' := by
  decide

theorem toDigitsCore_ok (fuel n : Nat) (acc : List Char)
    (hacc : ∀ c ∈ acc, c ≠ '/' ∧ c ≠ '.') :
    ∀ c ∈ Nat.toDigitsCore 10 fuel n acc, c ≠ '/' ∧ c ≠ '.' := by
  induction fuel generalizing n acc with
  | zero => simpa [Nat.toDigitsCore] using hacc
  | succ fuel ih =>
    have hc : ∀ c ∈ Nat.digitChar (n % 10) :: acc, c ≠ '/' ∧ c ≠ '.' := by
      intro c hc
      simp only [List.mem_cons] at hc
      rcases hc with rfl | hc
      · exact digitChar_ok _ (Nat.mod_lt _ (by decide))
      · exact hacc c hc
    unfold Nat.toDigitsCore
    simp only
    split
    · exact hc
    · exact ih _ _ hc

/-- The name of a temporary directory attempt is a name: no slash, not a dot
element; and none of its characters is a dot or a slash. -/
theorem tempName_ok (r : Nat) :
    IsName ("gifserver".data ++ Nat.toDigits 10 r) ∧
      ∀ c ∈ "gifserver".data ++ Nat.toDigits 10 r, c ≠ '/' ∧ c ≠ '.' := by
  have hall : ∀ c ∈ "gifserver".data ++ Nat.toDigits 10 r, c ≠ '/' ∧ c ≠ '.' := by
    intro c hc
    simp only [List.mem_append] at hc
    rcases hc with hc | hc
    · revert c
      decide
    · exact toDigitsCore_ok _ _ [] (by simp) c hc
  refine ⟨⟨?_, ?_, ?_, ?_⟩, hall⟩
  · simp
  · intro h
    have := hall '.' (by rw [h]; simp)
    exact this.2 rfl
  · intro h
    have := hall '.' (by rw [h]; simp)
    exact this.2 rfl
  · intro h
    exact (hall '/' h).1 rfl

theorem Join_name_suffix (root name : List Char) (hroot : root ≠ []) (hname : IsName name) :
    ∃ x, Join [root, name] = x ++ name := by
  rw [Join_pair root name hroot, Clean_append_name root name hroot hname, string_push]
  by_cases h : (cleanRun root).elements = []
  · rw [if_pos h]
    exact ⟨_, rfl⟩
  · rw [if_neg h]
    exact ⟨(cleanRun root).string (root.head? == some '/') ++ ['/'], by simp⟩

theorem os_Mkdir_cases (name : String) (w : World) :
    ((os_Mkdir name w).1 = none ∧ w.fs name = none ∧
        (os_Mkdir name w).2.fs = w.fs.write name Node.dir) ∨
      ((os_Mkdir name w).1 ≠ none ∧ (os_Mkdir name w).2.fs = w.fs) := by
  unfold os_Mkdir
  have hf := popFault_fs w
  rcases hp : w.popFault with ⟨_ | f, w1⟩
  · rw [hp] at hf
    simp only at hf
    simp only
    cases hn : w1.fs name with
    | none =>
      left
      rw [hf] at hn
      simp [hn, hf]
    | some n =>
      right
      simp [hf]
  · rw [hp] at hf
    right
    simpa using hf

theorem tempDirLoop_ok (root pre dir : String) :
    ∀ (tries : Nat) (err : Option GoError) (w : World), (tries = 0 → err ≠ none) →
      (tempDirLoop root pre tries err w).1 = (dir, none) →
      (∃ r, dir = path_Join [root, pre ++ ⟨Nat.toDigits 10 r⟩]) ∧ w.fs dir = none ∧
        (tempDirLoop root pre tries err w).2.fs = w.fs.write dir Node.dir := by
  intro tries
  induction tries with
  | zero =>
    intro err w h0 h
    simp only [tempDirLoop, Prod.mk.injEq] at h
    exact absurd h.2 (h0 rfl)
  | succ tries ih =>
    intro err w _ h
    unfold tempDirLoop at h ⊢
    simp only [nextRandom] at h ⊢
    generalize hw1 : ({ w with rands := w.rands.tail } : World) = w1 at h ⊢
    have hfs : w1.fs = w.fs := by rw [← hw1]
    generalize hname : path_Join [root, pre ++ ⟨Nat.toDigits 10 (w.rands.headD 0)⟩] = name at h ⊢
    have hm := os_Mkdir_cases name w1
    rcases hmk : os_Mkdir name w1 with ⟨e, w2⟩
    rw [hmk] at hm
    simp only [hmk] at hm h ⊢
    by_cases hex : os_IsExist e = true
    · simp only [hex, if_true] at h ⊢
      have he : e ≠ none := by
        intro hn
        rw [hn] at hex
        simp [os_IsExist] at hex
      have hfs2 : w2.fs = w.fs := by
        rcases hm with hm | hm
        · exact absurd hm.1 he
        · rw [hm.2, hfs]
      have := ih e w2 (fun _ => he) h
      rw [hfs2] at this
      exact this
    · simp only [hex] at h ⊢
      cases e with
      | some e1 => simp at h
      | none =>
        simp only [Bool.false_eq_true, if_false, if_true, Prod.mk.injEq, and_true] at h ⊢
        subst h
        rcases hm with hm | hm
        · refine ⟨⟨_, hname.symm⟩, ?_, ?_⟩
          · rw [← hfs]
            exact hm.2.1
          · simp [hm.2.2, hfs]
        · exact absurd rfl hm.1

/-- What a successful `ioutil.TempDir("", "gifserver")` returns: a name that was
free, `gifserver` and decimal digits joined to the temporary root, now a directory,
with nothing else changed. -/
theorem ioutil_TempDir_ok (w : World) (dir : String)
    (h : (ioutil_TempDir "" "gifserver" w).1 = (dir, none)) :
    (∃ r, dir = path_Join [os_TempDir w, "gifserver" ++ ⟨Nat.toDigits 10 r⟩]) ∧
      w.fs dir = none ∧
      (ioutil_TempDir "" "gifserver" w).2.fs = w.fs.write dir Node.dir := by
  unfold ioutil_TempDir at h ⊢
  simp only [if_true] at h ⊢
  exact tempDirLoop_ok _ _ dir 10000 none w (by simp) h

theorem os_TempDir_ne (w : World) : (os_TempDir w).data ≠ [] := by
  unfold os_TempDir
  split_ifs with h
  · decide
  · intro hd
    apply h
    cases hw : w.TMPDIR with
    | mk l =>
      rw [hw] at hd
      simp only at hd
      rw [hd]

/-- The shape of a staging directory: not empty, not ending in a dot, and the
staged file's path is the directory, a slash, and `in.gif`. -/
theorem tempDir_shape (w : World) (r : Nat) (dir : String)
    (h : dir = path_Join [os_TempDir w, "gifserver" ++ ⟨Nat.toDigits 10 r⟩]) :
    dir ≠ "" ∧ dir.data.getLast? ≠ some '.' ∧
      (path_Join [dir, "in.gif"]).data = dir.data ++ '/' :: "in.gif".data := by
  obtain ⟨hname, hall⟩ := tempName_ok r
  have hroot := os_TempDir_ne w
  have hd : dir.data = Join [(os_TempDir w).data, "gifserver".data ++ Nat.toDigits 10 r] := by
    rw [h]
    simp [path_Join, String.data_append]
  obtain ⟨x, hx⟩ := Join_name_suffix _ _ hroot hname
  refine ⟨?_, ?_, ?_⟩
  · intro he
    rw [he, hx] at hd
    have : x ++ ("gifserver".data ++ Nat.toDigits 10 r) = [] := hd.symm
    simp at this
  · rw [hd, hx, List.getLast?_append_of_ne_nil _ hname.1]
    intro hl
    have hm := List.mem_of_getLast?_eq_some hl
    exact (hall '.' hm).2 rfl
  · have hin : IsName "in.gif".data := by
      refine ⟨by decide, by decide, by decide, by decide⟩
    have := Join_Join_child _ _ "in.gif".data hroot hname hin
    rw [← hd] at this
    simpa [path_Join] using this

theorem under_self (dir : String) : under dir dir = true := by
  simp [under]

theorem under_child (dir p : String) (n : List Char)
    (h : p.data = dir.data ++ '/' :: n) : under dir p = true := by
  have : (dir.data ++ ['/']).isPrefixOf p.data = true := by
    rw [List.isPrefixOf_iff_prefix, h]
    exact ⟨n, by simp⟩
  simp [under, this]

theorem endsWithDot_of_last (dir : String) (hdot : dir.data.getLast? ≠ some '.') :
    endsWithDot dir = false := by
  unfold endsWithDot
  rw [← List.head?_reverse] at hdot
  split
  · rename_i h
    rw [h] at hdot
    exact absurd rfl hdot
  · rename_i h
    rw [h] at hdot
    exact absurd rfl hdot
  · rfl

theorem os_RemoveAll_ok (dir : String) (w : World) (hne : dir ≠ "")
    (hdot : dir.data.getLast? ≠ some '.') (h : (os_RemoveAll dir w).1 = none) :
    (os_RemoveAll dir w).2.fs = w.fs.removeAll dir ∧ (os_RemoveAll dir w).2.log = w.log := by
  unfold os_RemoveAll at h ⊢
  rw [if_neg hne, if_neg (by rw [endsWithDot_of_last dir hdot]; simp)] at h ⊢
  unfold World.popFault at h ⊢
  cases hf : w.faults with
  | nil => simp [hf]
  | cons f rest =>
    cases f with
    | none => simp [hf]
    | some f => simp [hf] at h

theorem os_RemoveAll_err (dir : String) (w : World) (e : GoError)
    (h : (os_RemoveAll dir w).1 = some e) :
    (os_RemoveAll dir w).2.fs = w.fs ∧ (os_RemoveAll dir w).2.log = w.log := by
  unfold os_RemoveAll at h ⊢
  split_ifs at h ⊢ with h1 h2
  · exact ⟨rfl, rfl⟩
  · unfold World.popFault at h ⊢
    cases hf : w.faults with
    | nil => simp [hf] at h
    | cons f rest =>
      cases f with
      | none => simp [hf] at h
      | some f => simp [hf]

/-- What `cleanDir` leaves, for a directory name that is not empty and does not end
in a dot: either the removal reported no error, the directory and everything
beneath it are gone and the log ends with the removal notice; or it reported an
error, nothing was removed, and the log ends with the notice and a warning. -/
theorem cleanDir_cases (dir : String) (w : World) (hne : dir ≠ "")
    (hdot : dir.data.getLast? ≠ some '.') :
    ((os_RemoveAll dir (log_Print [LogArg.str "Removing ", LogArg.str dir] w)).1 = none ∧
        (cleanDir dir w).fs = w.fs.removeAll dir ∧
        (cleanDir dir w).log = w.log ++ [[LogArg.str "Removing ", LogArg.str dir]]) ∨
      (∃ e, (os_RemoveAll dir (log_Print [LogArg.str "Removing ", LogArg.str dir] w)).1 = some e ∧
        (cleanDir dir w).fs = w.fs ∧
        (cleanDir dir w).log = w.log ++ [[LogArg.str "Removing ", LogArg.str dir],
          [LogArg.str "Warning: ", LogArg.err e]]) := by
  unfold cleanDir
  simp only
  generalize hw0 : log_Print [LogArg.str "Removing ", LogArg.str dir] w = w0
  have hfs0 : w0.fs = w.fs := by rw [← hw0]; rfl
  have hlog0 : w0.log = w.log ++ [[LogArg.str "Removing ", LogArg.str dir]] := by
    rw [← hw0]; rfl
  have hok := os_RemoveAll_ok dir w0 hne hdot
  have her := os_RemoveAll_err dir w0
  rcases hr : os_RemoveAll dir w0 with ⟨_ | e, w1⟩
  · left
    rw [hr] at hok
    obtain ⟨h1, h2⟩ := hok rfl
    simp only at h1 h2 ⊢
    exact ⟨trivial, by rw [h1, hfs0], by rw [h2, hlog0]⟩
  · right
    rw [hr] at her
    obtain ⟨h1, h2⟩ := her e rfl
    simp only at h1 h2 ⊢
    refine ⟨e, rfl, ?_, ?_⟩
    · show w1.fs = w.fs
      rw [h1, hfs0]
    · show w1.log ++ _ = _
      rw [h2, hlog0]
      simp

theorem File_Close_log (name : String) (w : World) : (File_Close name w).log = w.log := rfl

theorem removeAll_under (fs : FS) (dir q : String) (h : under dir q = true) :
    (fs.removeAll dir) q = none := by
  simp [FS.removeAll, h]

theorem removeAll_outside (fs : FS) (dir q : String) (h : under dir q = false) :
    (fs.removeAll dir) q = fs q := by
  simp [FS.removeAll, h]

/-- A successful `prepareConversion` returns a staging directory of the expected
shape and changes the file system at the directory and the staged file only. -/
theorem prepareConversion_ok (reader : Reader) (w : World) (dir : String)
    (h : (prepareConversion reader w).1 = (dir, none)) :
    (∃ r, dir = path_Join [os_TempDir w, "gifserver" ++ ⟨Nat.toDigits 10 r⟩]) ∧
      ∀ q, q ≠ dir → q ≠ path_Join [dir, "in.gif"] →
        (prepareConversion reader w).2.fs q = w.fs q := by
  unfold prepareConversion at h ⊢
  have ht := ioutil_TempDir_ok w
  rcases h1 : ioutil_TempDir "" "gifserver" w with ⟨⟨d, _ | e1⟩, w1⟩
  · rw [h1] at ht
    obtain ⟨hr, _, hfs1⟩ := ht d rfl
    simp only at hfs1
    simp only [h1] at h ⊢
    have hc := os_Create_ok (path_Join [d, "in.gif"]) w1
    rcases h2 : os_Create (path_Join [d, "in.gif"]) w1 with ⟨_ | e2, w2⟩
    · rw [h2] at hc
      have hfs2 := hc rfl
      simp only at hfs2
      simp only [h2] at h ⊢
      have hi := io_Copy_ok (path_Join [d, "in.gif"]) reader w2
      rcases h3 : io_Copy (path_Join [d, "in.gif"]) reader w2 with ⟨⟨n, _ | e3⟩, w3⟩
      · rw [h3] at hi
        obtain ⟨_, hfs3⟩ := hi rfl
        simp only at hfs3
        simp only [h3, Prod.mk.injEq, and_true] at h ⊢
        subst h
        refine ⟨hr, ?_⟩
        intro q hq1 hq2
        rw [File_Close_fs, hfs3, FS_write_other _ _ _ _ hq2, hfs2,
          FS_write_other _ _ _ _ hq2, hfs1, FS_write_other _ _ _ _ hq1]
      · simp [h3] at h
    · simp [h2] at h
  · simp [h1] at h

/-- C7: after a successful `prepareConversion`, a `cleanDir` of the returned
directory whose removal reports no error leaves a file system that has neither the
directory nor any path beneath it, the staged `in.gif` among them, and in which
every path outside the directory is as it was before `prepareConversion`. -/
theorem stage_then_cleanup_leaves_no_trace (reader : Reader) (w : World) (dir : String)
    (h : (prepareConversion reader w).1 = (dir, none))
    (hrm : (os_RemoveAll dir (log_Print [LogArg.str "Removing ", LogArg.str dir]
      (prepareConversion reader w).2)).1 = none) :
    (∀ q, under dir q = true →
        (cleanDir dir (prepareConversion reader w).2).fs q = none) ∧
      (cleanDir dir (prepareConversion reader w).2).fs dir = none ∧
      under dir (path_Join [dir, "in.gif"]) = true ∧
      (cleanDir dir (prepareConversion reader w).2).fs (path_Join [dir, "in.gif"]) = none ∧
      ∀ q, under dir q = false →
        (cleanDir dir (prepareConversion reader w).2).fs q = w.fs q := by
  obtain ⟨⟨r, hr⟩, hout⟩ := prepareConversion_ok reader w dir h
  obtain ⟨hne, hdot, hin⟩ := tempDir_shape w r dir hr
  have hchild : under dir (path_Join [dir, "in.gif"]) = true :=
    under_child dir _ _ hin
  have hfs : (cleanDir dir (prepareConversion reader w).2).fs =
      (prepareConversion reader w).2.fs.removeAll dir := by
    rcases cleanDir_cases dir (prepareConversion reader w).2 hne hdot with
      ⟨_, h2, _⟩ | ⟨e, h1, _, _⟩
    · exact h2
    · rw [hrm] at h1
      exact absurd h1 (by simp)
  have hgone : ∀ q, under dir q = true →
      (cleanDir dir (prepareConversion reader w).2).fs q = none := by
    intro q hq
    rw [hfs]
    exact removeAll_under _ _ _ hq
  refine ⟨hgone, hgone dir (under_self dir), hchild, hgone _ hchild, ?_⟩
  intro q hq
  rw [hfs, removeAll_outside _ _ _ hq]
  apply hout
  · intro hc
    rw [hc, under_self] at hq
    exact absurd hq (by simp)
  · intro hc
    rw [hc, hchild] at hq
    exact absurd hq (by simp)

/-! ## Facts about the tool runs -/

/-- What `Run` returns and leaves: the command is recorded with the returned error;
no error means the tool exited with status zero and left the file system that is
now current; an error is the start error, or the exit error with the tool's
non-zero exit code and an empty `Stderr`. -/
theorem Run_spec (c : Cmd) (w : World) :
    (c.Run w).2.ran = w.ran ++ [(c, (c.Run w).1)] ∧ (c.Run w).2.tool = w.tool ∧
      ((c.Run w).1 = none → ∃ txt, w.tool c w.fs = Exit.exited 0 txt (c.Run w).2.fs) ∧
      (∀ e, (c.Run w).1 = some e →
        w.tool c w.fs = Exit.notStarted e ∨
          ∃ code txt fs, w.tool c w.fs = Exit.exited code txt fs ∧ code ≠ 0 ∧
            e = GoError.exitError code []) := by
  unfold Cmd.Run
  cases ht : w.tool c w.fs with
  | notStarted err =>
    refine ⟨rfl, rfl, by intro h; simp at h, ?_⟩
    intro e he
    simp only [Option.some.injEq] at he
    exact Or.inl (by rw [he])
  | exited code txt fs =>
    by_cases hc : code = 0
    · subst hc
      dsimp only
      rw [if_pos rfl]
      exact ⟨rfl, rfl, fun _ => ⟨txt, rfl⟩, by intro e he; simp at he⟩
    · dsimp only
      rw [if_neg hc]
      refine ⟨rfl, rfl, by intro h; simp at h, ?_⟩
      intro e he
      simp only [Option.some.injEq] at he
      exact Or.inr ⟨code, txt, fs, rfl, hc, he.symm⟩

/-- The command `extractGif` runs. -/
theorem extractGif_eq (dir : String) (w : World) :
    extractGif dir w =
      Cmd.Run ⟨"convert", ["convert", "-coalesce", "in.gif", "frame_%05d.png"], dir⟩
        (log_Print [LogArg.str "Extracting ", LogArg.str dir] w) := rfl

theorem extractGif_spec (dir : String) (w : World) :
    (extractGif dir w).2.ran = w.ran ++
        [(⟨"convert", ["convert", "-coalesce", "in.gif", "frame_%05d.png"], dir⟩,
          (extractGif dir w).1)] ∧
      (extractGif dir w).2.tool = w.tool ∧
      ((extractGif dir w).1 = none →
        ∃ txt, w.tool ⟨"convert", ["convert", "-coalesce", "in.gif", "frame_%05d.png"], dir⟩
          w.fs = Exit.exited 0 txt (extractGif dir w).2.fs) ∧
      (∀ e, (extractGif dir w).1 = some e →
        w.tool ⟨"convert", ["convert", "-coalesce", "in.gif", "frame_%05d.png"], dir⟩ w.fs =
            Exit.notStarted e ∨
          ∃ code txt fs,
            w.tool ⟨"convert", ["convert", "-coalesce", "in.gif", "frame_%05d.png"], dir⟩
              w.fs = Exit.exited code txt fs ∧ code ≠ 0 ∧ e = GoError.exitError code []) := by
  rw [extractGif_eq]
  exact Run_spec _ _

theorem endsWith_one (w w0 : World) (c : Cmd) (p : String)
    (hran : w0.ran = w.ran) (htool : w0.tool = w.tool) :
    EndsWith w
      (match c.Run w0 with
        | (some err, w1) => (("", some err), w1)
        | (none, w1) => ((p, none), w1)) := by
  obtain ⟨h1, _, h3, h4⟩ := Run_spec c w0
  rw [htool] at h3 h4
  rcases hr : c.Run w0 with ⟨_ | e, w1⟩
  · rw [hr] at h1 h3 h4
    simp only at h1 h3 h4 ⊢
    refine ⟨[], c, w0.fs, by simp [h1, hran], by simp, by simp, fun _ => rfl,
      fun _ => h3 trivial, ?_⟩
    intro e he
    simp at he
  · rw [hr] at h1 h3 h4
    simp only at h1 h3 h4 ⊢
    refine ⟨[], c, w0.fs, by simp [h1, hran], by simp, by simp, fun _ => rfl,
      by intro h; simp at h, ?_⟩
    intro e2 he
    exact ⟨rfl, h4 e2 he⟩

theorem endsWith_two (w w0 : World) (dir : String) (c : Cmd) (p : String)
    (hc : c.Path = "ffmpeg") (hran : w0.ran = w.ran) (htool : w0.tool = w.tool) :
    EndsWith w
      (match extractGif dir w0 with
        | (some err, w1) => (("", some err), w1)
        | (none, w1) =>
          match c.Run w1 with
          | (some err, w2) => (("", some err), w2)
          | (none, w2) => ((p, none), w2)) := by
  obtain ⟨h1, h2, h3, h4⟩ := extractGif_spec dir w0
  rw [htool] at h3 h4
  rcases hr : extractGif dir w0 with ⟨_ | e, w1⟩
  · rw [hr] at h1 h2 h3 h4
    simp only at h1 h2 h3 h4 ⊢
    obtain ⟨k1, k2, k3, k4⟩ := Run_spec c w1
    rw [h2, htool] at k3 k4
    rcases hr2 : c.Run w1 with ⟨_ | e, w2⟩
    · rw [hr2] at k1 k3 k4
      simp only at k1 k3 k4 ⊢
      refine ⟨[(⟨"convert", ["convert", "-coalesce", "in.gif", "frame_%05d.png"], dir⟩, none)],
        c, w1.fs, by simp [k1, h1, hran], by simp, by simp [hc],
        by intro h; rw [hc] at h; exact absurd h (by decide), fun _ => k3 trivial, ?_⟩
      intro e he
      simp at he
    · rw [hr2] at k1 k3 k4
      simp only at k1 k3 k4 ⊢
      refine ⟨[(⟨"convert", ["convert", "-coalesce", "in.gif", "frame_%05d.png"], dir⟩, none)],
        c, w1.fs, by simp [k1, h1, hran], by simp, by simp [hc],
        by intro h; rw [hc] at h; exact absurd h (by decide), by intro h; simp at h, ?_⟩
      intro e2 he
      exact ⟨rfl, k4 e2 he⟩
  · rw [hr] at h1 h3 h4
    simp only at h1 h3 h4 ⊢
    refine ⟨[], ⟨"convert", ["convert", "-coalesce", "in.gif", "frame_%05d.png"], dir⟩,
      w0.fs, by simp [h1, hran], by simp, by simp, fun _ => rfl,
      by intro h; simp at h, ?_⟩
    intro e2 he
    exact ⟨rfl, h4 e2 he⟩

/-- Every strategy ends as `EndsWith` says. -/
theorem strategies_endsWith (s : converter) (hs : s ∈ strategies) (dir : String)
    (w : World) : EndsWith w (s dir w) := by
  simp only [strategies, List.mem_cons, List.mem_singleton, List.not_mem_nil, or_false] at hs
  rcases hs with rfl | rfl | rfl | rfl
  · exact endsWith_one w _ _ _ rfl rfl
  · exact endsWith_two w _ dir _ _ rfl rfl rfl
  · exact endsWith_two w _ dir _ _ rfl rfl rfl
  · have := endsWith_one w (log_Print [LogArg.str "Extracting ", LogArg.str dir] w)
      ⟨"convert", ["convert", "-coalesce", "in.gif", "frame_%05d.png"], dir⟩
      (path_Join [dir, "frame_00001.png"]) rfl rfl
    exact this

/-! ## The claims about the strategies -/

theorem Run_of_exit (c : Cmd) (w : World) (code : Int) (txt : List Char) (fs : FS)
    (h : w.tool c w.fs = Exit.exited code txt fs) :
    c.Run w =
      if code = 0 then (none, { w with fs := fs, ran := w.ran ++ [(c, none)] })
      else (some (GoError.exitError code []),
        { w with fs := fs, ran := w.ran ++ [(c, some (GoError.exitError code []))] }) := by
  unfold Cmd.Run
  rw [h]

theorem extractGif_of_exit (dir : String) (w : World) (code : Int) (txt : List Char)
    (fs : FS) (h : w.tool (extractCmd dir) w.fs = Exit.exited code txt fs) :
    extractGif dir w =
      if code = 0 then
        (none, { log_Print [LogArg.str "Extracting ", LogArg.str dir] w with
          fs := fs, ran := w.ran ++ [(extractCmd dir, none)] })
      else (some (GoError.exitError code []),
        { log_Print [LogArg.str "Extracting ", LogArg.str dir] w with
          fs := fs, ran := w.ran ++ [(extractCmd dir, some (GoError.exitError code []))] }) :=
  Run_of_exit (extractCmd dir) (log_Print [LogArg.str "Extracting ", LogArg.str dir] w)
    code txt fs h

/-- C9 (amended): whichever tool a strategy or `extractGif` runs, when that tool
exits with a non-zero status the error returned to the caller is the exit error
that carries the tool's exit code, with an empty `Stderr` whatever text the tool
wrote to its standard error; the strategies return it with the empty path.  The
tool is the extraction (for `extractGif`, `convertToFrame`, `convertFramesToMP4`
and `convertFramesToOGV`), the encoder of `convertGifToMP4`, or the encoder that
`convertFramesToMP4` or `convertFramesToOGV` runs on the file system a successful
extraction left. -/
theorem tool_failure_error_carries_code_only (dir : String) (w : World) (code : Int)
    (txt : List Char) (fs : FS) (hcode : code ≠ 0) :
    (w.tool (extractCmd dir) w.fs = Exit.exited code txt fs →
        (extractGif dir w).1 = some (GoError.exitError code []) ∧
        (convertToFrame dir w).1 = ("", some (GoError.exitError code [])) ∧
        (convertFramesToMP4 dir w).1 = ("", some (GoError.exitError code [])) ∧
        (convertFramesToOGV dir w).1 = ("", some (GoError.exitError code []))) ∧
      (w.tool (gifToMP4Cmd dir) w.fs = Exit.exited code txt fs →
        (convertGifToMP4 dir w).1 = ("", some (GoError.exitError code []))) ∧
      (∀ txt1 fs1, w.tool (extractCmd dir) w.fs = Exit.exited 0 txt1 fs1 →
        (w.tool (framesToMP4Cmd dir) fs1 = Exit.exited code txt fs →
          (convertFramesToMP4 dir w).1 = ("", some (GoError.exitError code []))) ∧
        (w.tool (framesToOGVCmd dir) fs1 = Exit.exited code txt fs →
          (convertFramesToOGV dir w).1 = ("", some (GoError.exitError code [])))) := by
  refine ⟨?_, ?_, ?_⟩
  · intro h
    refine ⟨?_, ?_, ?_, ?_⟩
    · rw [extractGif_of_exit dir w code txt fs h, if_neg hcode]
    · unfold convertToFrame
      rw [extractGif_of_exit dir w code txt fs h, if_neg hcode]
    · unfold convertFramesToMP4
      dsimp only
      rw [extractGif_of_exit dir
        (log_Print [LogArg.str "Encoding ", LogArg.str dir, LogArg.str " to mp4"] w) code txt fs h,
        if_neg hcode]
    · unfold convertFramesToOGV
      dsimp only
      rw [extractGif_of_exit dir
        (log_Print [LogArg.str "Encoding ", LogArg.str dir, LogArg.str " to ogv"] w) code txt fs h,
        if_neg hcode]
  · intro h
    unfold convertGifToMP4
    dsimp only
    have := Run_of_exit (gifToMP4Cmd dir)
      (log_Print [LogArg.str "Encoding ", LogArg.str (path_Join [dir, "in.gif"]),
        LogArg.str " to mp4"] w) code txt fs h
    rw [if_neg hcode] at this
    unfold gifToMP4Cmd at this
    rw [this]
  · intro txt1 fs1 h1
    constructor
    · intro h
      unfold convertFramesToMP4
      dsimp only
      rw [extractGif_of_exit dir
        (log_Print [LogArg.str "Encoding ", LogArg.str dir, LogArg.str " to mp4"] w) 0 txt1 fs1 h1,
        if_pos rfl]
      dsimp only
      have := Run_of_exit (framesToMP4Cmd dir)
        ({ log_Print [LogArg.str "Extracting ", LogArg.str dir]
            (log_Print [LogArg.str "Encoding ", LogArg.str dir, LogArg.str " to mp4"] w) with
          fs := fs1,
          ran := (log_Print [LogArg.str "Encoding ", LogArg.str dir,
            LogArg.str " to mp4"] w).ran ++ [(extractCmd dir, none)] }) code txt fs h
      rw [if_neg hcode] at this
      unfold framesToMP4Cmd at this
      rw [this]
    · intro h
      unfold convertFramesToOGV
      dsimp only
      rw [extractGif_of_exit dir
        (log_Print [LogArg.str "Encoding ", LogArg.str dir, LogArg.str " to ogv"] w) 0 txt1 fs1 h1,
        if_pos rfl]
      dsimp only
      have := Run_of_exit (framesToOGVCmd dir)
        ({ log_Print [LogArg.str "Extracting ", LogArg.str dir]
            (log_Print [LogArg.str "Encoding ", LogArg.str dir, LogArg.str " to ogv"] w) with
          fs := fs1,
          ran := (log_Print [LogArg.str "Encoding ", LogArg.str dir,
            LogArg.str " to ogv"] w).ran ++ [(extractCmd dir, none)] }) code txt fs h
      rw [if_neg hcode] at this
      unfold framesToOGVCmd at this
      rw [this]

theorem tool_failure_error_carries_code_only_witness :
    (1 : Int) ≠ 0 ∧
      (∃ fs1, (World.start FS.empty [] toolsEncoderFails).tool (extractCmd "/tmp/x")
        (World.start FS.empty [] toolsEncoderFails).fs = Exit.exited 0 [] fs1 ∧
        (World.start FS.empty [] toolsEncoderFails).tool (framesToMP4Cmd "/tmp/x") fs1 =
          Exit.exited 1 "Unknown encoder".data fs1) ∧
      (convertFramesToMP4 "/tmp/x" (World.start FS.empty [] toolsEncoderFails)).1 =
        ("", some (GoError.exitError 1 [])) :=
  ⟨by decide, ⟨_, rfl, rfl⟩,
    ((tool_failure_error_carries_code_only "/tmp/x"
      (World.start FS.empty [] toolsEncoderFails) 1 "Unknown encoder".data _
      (by decide)).2.2 [] _ rfl).1 rfl⟩

/-- C3: every command a strategy runs is recorded, no program is run twice, and
when a command it ran failed (its `Run` returned an error), the strategy returns
the empty path together with that error, that command is the last one run, every
command before it returned no error, and when it is the frame extraction nothing
else was run. -/
theorem strategy_failure_is_final (s : converter) (hs : s ∈ strategies) (dir : String)
    (w : World) :
    ∃ new : List (Cmd × Option GoError),
      (s dir w).2.ran = w.ran ++ new ∧
      (new.map (fun x => x.1.Path)).Nodup ∧
      ∀ c e, (c, some e) ∈ new →
        (s dir w).1 = ("", some e) ∧
        ∃ pre : List (Cmd × Option GoError),
          new = pre ++ [(c, some e)] ∧ (∀ x ∈ pre, x.2 = none) ∧
          (c.Path = "convert" → pre = []) := by
  obtain ⟨pre, c, fs0, h1, h2, h3, h4, _, h6⟩ := strategies_endsWith s hs dir w
  refine ⟨pre ++ [(c, (s dir w).1.2)], by rw [h1, List.append_assoc], h3, ?_⟩
  intro c2 e hmem
  rw [List.mem_append, List.mem_singleton] at hmem
  rcases hmem with hmem | hmem
  · have := h2 _ hmem
    simp at this
  · rw [Prod.mk.injEq] at hmem
    obtain ⟨rfl, he⟩ := hmem
    have hpath := (h6 e he.symm).1
    refine ⟨?_, pre, by rw [← he], h2, h4⟩
    rw [Prod.ext_iff]
    exact ⟨hpath, he.symm⟩

theorem strategy_failure_is_final_witness :
    ∃ new : List (Cmd × Option GoError),
      (convertFramesToMP4 "/tmp/x" (World.start FS.empty [] toolsEncoderFails)).2.ran =
        (World.start FS.empty [] toolsEncoderFails).ran ++ new ∧
      (new.map (fun x => x.1.Path)).Nodup ∧
      ∀ c e, (c, some e) ∈ new →
        (convertFramesToMP4 "/tmp/x" (World.start FS.empty [] toolsEncoderFails)).1 =
          ("", some e) ∧
        ∃ pre : List (Cmd × Option GoError),
          new = pre ++ [(c, some e)] ∧ (∀ x ∈ pre, x.2 = none) ∧
          (c.Path = "convert" → pre = []) :=
  strategy_failure_is_final convertFramesToMP4 (List.Mem.tail _ (List.Mem.head _))
    "/tmp/x" (World.start FS.empty [] toolsEncoderFails)

/-- C8 (failing input): a `convert` that numbers the frames it writes from 0.  Given
a one-frame image it exits with status zero leaving only `frame_00000.png`;
`convertToFrame` returns `frame_00001.png` without an error and nothing exists at
that path.  Given a two-frame image, the path returned holds the second frame, not
the first. -/
theorem convertToFrame_returns_missing_file :
    (convertToFrame "/tmp/gifserver42" (World.start FS.empty [] toolsSingleFrame)).1 =
        ("/tmp/gifserver42/frame_00001.png", none) ∧
      (convertToFrame "/tmp/gifserver42" (World.start FS.empty [] toolsSingleFrame)).2.fs
        "/tmp/gifserver42/frame_00001.png" = none ∧
      (convertToFrame "/tmp/gifserver42" (World.start FS.empty [] toolsSingleFrame)).2.fs
        "/tmp/gifserver42/frame_00000.png" = some (Node.file [1]) ∧
      (convertToFrame "/tmp/gifserver42" (World.start FS.empty [] toolsWork)).1 =
        ("/tmp/gifserver42/frame_00001.png", none) ∧
      (convertToFrame "/tmp/gifserver42" (World.start FS.empty [] toolsWork)).2.fs
        "/tmp/gifserver42/frame_00000.png" = some (Node.file [1]) ∧
      (convertToFrame "/tmp/gifserver42" (World.start FS.empty [] toolsWork)).2.fs
        "/tmp/gifserver42/frame_00001.png" = some (Node.file [2]) := by
  decide

/-- C9 (as stated, refuted): a `convert` that exits with status 1 after writing
`no decode delegate` to its standard error makes `extractGif` return the exit error
with code 1 and an empty `Stderr`: the text is not in the error. -/
theorem extractGif_error_drops_stderr :
    (∃ fs, (World.start FS.empty [] toolsExtractFails).tool
        ⟨"convert", ["convert", "-coalesce", "in.gif", "frame_%05d.png"], "/tmp/x"⟩
        (World.start FS.empty [] toolsExtractFails).fs =
          Exit.exited 1 "no decode delegate".data fs) ∧
      (extractGif "/tmp/x" (World.start FS.empty [] toolsExtractFails)).1 =
        some (GoError.exitError 1 []) ∧
      (extractGif "/tmp/x" (World.start FS.empty [] toolsExtractFails)).1 ≠
        some (GoError.exitError 1 "no decode delegate".data) :=
  ⟨⟨_, rfl⟩, by decide, by decide⟩

theorem isName_in_gif : IsName "in.gif".data := ⟨by decide, by decide, by decide, by decide⟩

theorem isName_out_mp4 : IsName "out.mp4".data := ⟨by decide, by decide, by decide, by decide⟩

/-- The sibling `out.mp4` of the staged file, formed through `filepath.Dir`, is
`path.Join(dir, "out.mp4")`, for every directory string. -/
theorem path_Join_Dir_in_gif (dir : String) :
    path_Join [filepath_Dir (path_Join [dir, "in.gif"]), "out.mp4"] =
      path_Join [dir, "out.mp4"] := by
  have := Join_Dir_Join dir.data "in.gif".data "out.mp4".data isName_in_gif isName_out_mp4
  simp only [path_Join, filepath_Dir, List.map_cons, List.map_nil]
  rw [this]

theorem result_of_run (r : Option GoError × World) (p : String) :
    (match r with
      | (some err, w1) => ((("", some err), w1) : (String × Option GoError) × World)
      | (none, w1) => ((p, none), w1)).1.2 = none →
    (match r with
      | (some err, w1) => ((("", some err), w1) : (String × Option GoError) × World)
      | (none, w1) => ((p, none), w1)).1.1 = p := by
  rcases r with ⟨_ | e, w1⟩
  · intro _; rfl
  · intro h; simp at h

/-- C10: each strategy's successful result is the fixed name joined to `dir`:
`convertFramesToMP4` and `convertGifToMP4` return `path.Join(dir, "out.mp4")` (the
path `convertGifToMP4` forms through `filepath.Dir` of the staged file's path is
that same path, for every `dir`), `convertFramesToOGV` returns
`path.Join(dir, "out.ogv")`, and `convertToFrame` returns
`path.Join(dir, "frame_00001.png")`, which is the name the extractor's pattern
`frame_%05d.png`, the last argument of its command, gives for index 1. -/
theorem strategy_result_paths (dir : String) (w : World) :
    ((convertFramesToMP4 dir w).1.2 = none →
        (convertFramesToMP4 dir w).1.1 = path_Join [dir, "out.mp4"]) ∧
      ((convertGifToMP4 dir w).1.2 = none →
        (convertGifToMP4 dir w).1.1 = path_Join [dir, "out.mp4"]) ∧
      path_Join [filepath_Dir (path_Join [dir, "in.gif"]), "out.mp4"] =
        path_Join [dir, "out.mp4"] ∧
      ((convertFramesToOGV dir w).1.2 = none →
        (convertFramesToOGV dir w).1.1 = path_Join [dir, "out.ogv"]) ∧
      ((convertToFrame dir w).1.2 = none →
        (convertToFrame dir w).1.1 = path_Join [dir, "frame_00001.png"]) ∧
      (∃ c r, (extractGif dir w).2.ran.getLast? = some (c, r) ∧
        c.Args.getLast? = some "frame_%05d.png") ∧
      String.mk (expandPattern "frame_%05d.png".data 1) = "frame_00001.png" := by
  refine ⟨?_, ?_, path_Join_Dir_in_gif dir, ?_, ?_, ?_, by decide⟩
  · unfold convertFramesToMP4
    dsimp only
    rcases extractGif dir _ with ⟨_ | e, w1⟩
    · exact result_of_run _ _
    · intro h; simp at h
  · unfold convertGifToMP4
    dsimp only
    intro h
    exact (result_of_run _ _ h).trans (path_Join_Dir_in_gif dir)
  · unfold convertFramesToOGV
    dsimp only
    rcases extractGif dir _ with ⟨_ | e, w1⟩
    · exact result_of_run _ _
    · intro h; simp at h
  · unfold convertToFrame
    exact result_of_run _ _
  · obtain ⟨h1, _⟩ := extractGif_spec dir w
    exact ⟨⟨"convert", ["convert", "-coalesce", "in.gif", "frame_%05d.png"], dir⟩,
      (extractGif dir w).1, by rw [h1]; simp, rfl⟩

theorem strategy_result_paths_witness :
    (convertGifToMP4 "/tmp/gifserver42" (World.start FS.empty [] toolsWork)).1.2 = none ∧
      (convertGifToMP4 "/tmp/gifserver42" (World.start FS.empty [] toolsWork)).1.1 =
        path_Join ["/tmp/gifserver42", "out.mp4"] :=
  ⟨by decide, (strategy_result_paths "/tmp/gifserver42"
    (World.start FS.empty [] toolsWork)).2.1 (by decide)⟩

/-- C1 (amended): when `prepareConversion` returns an error after the temporary
directory was created, it returns the empty path, and the error is that of the step
that failed: creating `in.gif`, or copying the stream into it.  From the world `w2`
that step left, `cleanDir` logs the removal notice and calls `os.RemoveAll` on the
directory.  When that call reports no error, nothing more is logged and neither the
directory nor anything beneath it exists in the resulting file system.  When it
reports an error, a warning that carries that error is logged after the notice and
the error returned is still that of the failed step. -/
theorem prepareConversion_error_cleanup (reader : Reader) (w : World) (dir : String)
    (e : GoError)
    (hdir : (ioutil_TempDir "" "gifserver" w).1 = (dir, none))
    (herr : (prepareConversion reader w).1.2 = some e) :
    (prepareConversion reader w).1.1 = "" ∧
      ∃ w2 : World,
        (os_Create (path_Join [dir, "in.gif"]) (ioutil_TempDir "" "gifserver" w).2 =
            (some e, w2) ∨
          ((os_Create (path_Join [dir, "in.gif"]) (ioutil_TempDir "" "gifserver" w).2).1 =
              none ∧
            ∃ n, io_Copy (path_Join [dir, "in.gif"]) reader
              (os_Create (path_Join [dir, "in.gif"]) (ioutil_TempDir "" "gifserver" w).2).2 =
                ((n, some e), w2))) ∧
        ((os_RemoveAll dir (log_Print [LogArg.str "Removing ", LogArg.str dir] w2)).1 = none →
          (prepareConversion reader w).2.log =
              w2.log ++ [[LogArg.str "Removing ", LogArg.str dir]] ∧
            ∀ q, under dir q = true → (prepareConversion reader w).2.fs q = none) ∧
        ∀ e2,
          (os_RemoveAll dir (log_Print [LogArg.str "Removing ", LogArg.str dir] w2)).1 =
            some e2 →
          (prepareConversion reader w).2.log =
            w2.log ++ [[LogArg.str "Removing ", LogArg.str dir],
              [LogArg.str "Warning: ", LogArg.err e2]] := by
  obtain ⟨⟨r, hr⟩, _, _⟩ := ioutil_TempDir_ok w dir hdir
  obtain ⟨hne, hdot, _⟩ := tempDir_shape w r dir hr
  have hclean : ∀ w2 : World,
      ((os_RemoveAll dir (log_Print [LogArg.str "Removing ", LogArg.str dir] w2)).1 = none →
        (cleanDir dir w2).log = w2.log ++ [[LogArg.str "Removing ", LogArg.str dir]] ∧
          ∀ q, under dir q = true → (cleanDir dir w2).fs q = none) ∧
      ∀ e2,
        (os_RemoveAll dir (log_Print [LogArg.str "Removing ", LogArg.str dir] w2)).1 =
          some e2 →
        (cleanDir dir w2).log =
          w2.log ++ [[LogArg.str "Removing ", LogArg.str dir],
            [LogArg.str "Warning: ", LogArg.err e2]] := by
    intro w2
    rcases cleanDir_cases dir w2 hne hdot with ⟨h1, h2, h3⟩ | ⟨e3, h1, _, h3⟩
    · refine ⟨fun _ => ⟨h3, ?_⟩, ?_⟩
      · intro q hq
        rw [h2]
        exact removeAll_under _ _ _ hq
      · intro e2 he2
        rw [h1] at he2
        exact absurd he2 (by simp)
    · refine ⟨?_, ?_⟩
      · intro hn
        rw [h1] at hn
        exact absurd hn (by simp)
      · intro e2 he2
        rw [h1] at he2
        simp only [Option.some.injEq] at he2
        subst he2
        exact h3
  unfold prepareConversion at herr ⊢
  rcases h1 : ioutil_TempDir "" "gifserver" w with ⟨⟨d, e1⟩, w1⟩
  rw [h1] at hdir
  simp only [Prod.mk.injEq] at hdir
  obtain ⟨rfl, rfl⟩ := hdir
  simp only [h1] at herr ⊢
  rcases h2 : os_Create (path_Join [d, "in.gif"]) w1 with ⟨_ | e2, w2⟩
  · simp only [h2] at herr ⊢
    rcases h3 : io_Copy (path_Join [d, "in.gif"]) reader w2 with ⟨⟨n, _ | e3⟩, w3⟩
    · simp [h3] at herr
    · simp only [h3, Option.some.injEq] at herr
      subst herr
      simp only [h3, File_Close_fs, File_Close_log, true_and]
      exact ⟨w3, Or.inr ⟨n, rfl⟩, hclean w3⟩
  · simp only [h2, Option.some.injEq] at herr
    subst herr
    simp only [h2, true_and]
    exact ⟨w2, Or.inl rfl, hclean w2⟩

theorem prepareConversion_error_cleanup_witness :
    (ioutil_TempDir "" "gifserver"
        (World.start FS.empty [none, some ⟨GoError.other "too many open files", 0⟩]
          toolsWork)).1 = ("/tmp/gifserver42", none) ∧
      (prepareConversion (Reader.stream [1, 2, 3] none)
        (World.start FS.empty [none, some ⟨GoError.other "too many open files", 0⟩]
          toolsWork)).1.2 = some (GoError.other "too many open files") ∧
      (prepareConversion (Reader.stream [1, 2, 3] none)
        (World.start FS.empty [none, some ⟨GoError.other "too many open files", 0⟩]
          toolsWork)).1.1 = "" ∧
      (prepareConversion (Reader.stream [1, 2, 3] none)
        (World.start FS.empty [none, some ⟨GoError.other "too many open files", 0⟩]
          toolsWork)).2.fs "/tmp/gifserver42" = none :=
  ⟨by decide, by decide,
    (prepareConversion_error_cleanup (Reader.stream [1, 2, 3] none)
      (World.start FS.empty [none, some ⟨GoError.other "too many open files", 0⟩] toolsWork)
      "/tmp/gifserver42" (GoError.other "too many open files") (by decide) (by decide)).1,
    by decide⟩

/-- C1 (as stated, refuted): the upload breaks off after three bytes and the
removal of the staging directory then fails; `prepareConversion` returns the empty
path and the read error, and the directory it created is still there. -/
theorem prepareConversion_leaves_dir_when_removal_fails :
    (ioutil_TempDir "" "gifserver"
        (World.start FS.empty [none, none, none, some ⟨GoError.other "permission denied", 0⟩]
          toolsWork)).1 = ("/tmp/gifserver42", none) ∧
      (prepareConversion (Reader.stream [1, 2, 3] (some (GoError.other "connection reset")))
        (World.start FS.empty [none, none, none, some ⟨GoError.other "permission denied", 0⟩]
          toolsWork)).1 = ("", some (GoError.other "connection reset")) ∧
      (prepareConversion (Reader.stream [1, 2, 3] (some (GoError.other "connection reset")))
        (World.start FS.empty [none, none, none, some ⟨GoError.other "permission denied", 0⟩]
          toolsWork)).2.fs "/tmp/gifserver42" = some Node.dir := by
  decide

theorem prepareConversion_stages_input_witness :
    (prepareConversion (Reader.stream [71, 73, 70] none)
        (World.start FS.empty [] toolsWork)).1 = ("/tmp/gifserver42", none) ∧
      (prepareConversion (Reader.stream [71, 73, 70] none)
        (World.start FS.empty [] toolsWork)).2.fs (path_Join ["/tmp/gifserver42", "in.gif"]) =
          some (Node.file [71, 73, 70]) :=
  ⟨by decide, prepareConversion_stages_input [71, 73, 70] none
    (World.start FS.empty [] toolsWork) "/tmp/gifserver42" (by decide)⟩

theorem checkDimensions_ok_iff_witness :
    (0 : Int) ≤ 300 ∧ (0 : Int) ≤ 0 ∧
      checkDimensions headerDecodeConfig header300x200 300 0 = none :=
  ⟨by decide, by decide,
    ((checkDimensions_ok_iff headerDecodeConfig header300x200 300 0 (by decide)
      (by decide)).1).2 ⟨300, 200, by decide, Or.inr (by decide), Or.inl rfl⟩⟩

theorem checkDimensions_width_error_witness :
    headerDecodeConfig header300x200 = (⟨300, 200⟩, none) ∧ (0 : Int) < 299 ∧
      checkDimensions headerDecodeConfig header300x200 299 100 =
        some (GoError.errorf "Image width too large %d > %d" [300, 299]) :=
  ⟨by decide, by decide,
    (checkDimensions_width_error headerDecodeConfig header300x200 299 100 ⟨300, 200⟩
      (by decide) (by decide) (by decide)).1⟩

/-- C6 (failing input): `copyFile` with `src` and `dest` the same existing file.
`os.Create(dest)` truncates the file `os.Open(src)` has just opened, `io.Copy`
then finds nothing to copy, and no error is returned: the file is left empty, so
the destination does not hold what the source held and the source is damaged. -/
theorem copyFile_onto_itself_empties :
    (World.start (FS.empty.write "/srv/a.mp4" (Node.file [1, 2, 3])) [] toolsWork).fs
        "/srv/a.mp4" = some (Node.file [1, 2, 3]) ∧
      (copyFile "/srv/a.mp4" "/srv/a.mp4"
        (World.start (FS.empty.write "/srv/a.mp4" (Node.file [1, 2, 3])) [] toolsWork)).1 =
          none ∧
      (copyFile "/srv/a.mp4" "/srv/a.mp4"
        (World.start (FS.empty.write "/srv/a.mp4" (Node.file [1, 2, 3])) [] toolsWork)).2.fs
          "/srv/a.mp4" = some (Node.file []) := by
  decide

theorem stage_then_cleanup_leaves_no_trace_witness :
    (prepareConversion (Reader.stream [71, 73, 70] none)
        (World.start (FS.empty.write "/srv/a.mp4" (Node.file [9])) [] toolsWork)).1 =
          ("/tmp/gifserver42", none) ∧
      (cleanDir "/tmp/gifserver42" (prepareConversion (Reader.stream [71, 73, 70] none)
        (World.start (FS.empty.write "/srv/a.mp4" (Node.file [9])) [] toolsWork)).2).fs
          "/tmp/gifserver42" = none :=
  ⟨by decide, (stage_then_cleanup_leaves_no_trace (Reader.stream [71, 73, 70] none)
    (World.start (FS.empty.write "/srv/a.mp4" (Node.file [9])) [] toolsWork)
    "/tmp/gifserver42" (by decide) (by decide)).2.1⟩

end GifServer
